import Mathlib

/-!
# Verification of the `ai_mcp_daemon_engine` MCP daemon

A shallow embedding, in Lean 4, of the parts of the `ai_mcp_daemon_engine`
repository that the specification's key claims are about:

* the JSON-schema argument validator
  (`handlers/mcp_utility.py`: `_validate_and_set_defaults`,
  `_validate_nested_structure`);
* the function-call recorder and its blob-store offload
  (`handlers/mcp_utility.py`: `_insert_update_mcp_function_call`,
  `_save_content_to_s3`);
* the async dispatcher's polling loop
  (`handlers/mcp_utility.py`: `async_execute_tool_function`);
* the SSE fanout manager (`handlers/sse_manager.py`);
* the SSE stream handler's replay logic and the endpoint-id validation
  (`handlers/mcp_app.py`);
* the configuration-cache invalidation on GraphQL mutations
  (`handlers/mcp_app.py`: `mcp_core_graphql`,
  `handlers/config.py`: `fetch_mcp_configuration`,
  `clear_mcp_configuration_cache`);
* the local JWT verifier (`handlers/jwt_local.py`);
* the synchronous tool-execution pipeline
  (`handlers/mcp_utility.py`: `execute_tool_function`).

Python dictionaries / JSON values are modelled by the inductive type `PyVal`;
mutation of a dictionary is modelled by threading the updated value through
the computation; raised exceptions are modelled by `Except String`.
-/

namespace MCPDaemon

/-- A Python/JSON value: the dynamic values the daemon's handlers manipulate
(strings, integers, booleans, `None`, lists, and insertion-ordered
dictionaries with string keys). -/
inductive PyVal : Type where
  | str (s : String)
  | int (n : Int)
  | bool (b : Bool)
  | null
  | list (xs : List PyVal)
  | dict (kvs : List (String × PyVal))

namespace PyVal

/-- Size measure used for termination of the recursive schema walker. -/
def psize : PyVal → Nat
  | .str _ => 1
  | .int _ => 1
  | .bool _ => 1
  | .null => 1
  | .list xs => 1 + plistSize xs
  | .dict kvs => 1 + pdictSize kvs
where
  /-- Size of the elements of a list value. -/
  plistSize : List PyVal → Nat
    | [] => 0
    | x :: xs => 1 + psize x + plistSize xs
  /-- Size of the entries of a dictionary value. -/
  pdictSize : List (String × PyVal) → Nat
    | [] => 0
    | (_, v) :: kvs => 1 + psize v + pdictSize kvs

/-- Key lookup in an insertion-ordered dictionary (first match). -/
def alookup (k : String) : List (String × PyVal) → Option PyVal
  | [] => none
  | (k', v) :: kvs => if k' = k then some v else alookup k kvs

/-- `d[k] = v` on an insertion-ordered dictionary: an existing key keeps its
position, a new key is appended at the end (CPython dict semantics). -/
def aset (k : String) (v : PyVal) : List (String × PyVal) → List (String × PyVal)
  | [] => [(k, v)]
  | (k', v') :: kvs => if k' = k then (k, v) :: kvs else (k', v') :: aset k v kvs

/-- Python truthiness of a value (`bool(v)`). -/
def pyTruthy : PyVal → Bool
  | .str s => s != ""
  | .int n => n != 0
  | .bool b => b
  | .null => false
  | .list [] => false
  | .list (_ :: _) => true
  | .dict [] => false
  | .dict (_ :: _) => true

/-- Boolean equality of two Python values (`==`), written by hand because the
nested lists prevent a derived instance. -/
def pyBeq : PyVal → PyVal → Bool
  | .str s, .str t => s == t
  | .int m, .int n => m == n
  | .bool a, .bool b => a == b
  | .null, .null => true
  | .list xs, .list ys => pyBeqList xs ys
  | .dict ps, .dict qs => pyBeqDict ps qs
  | _, _ => false
where
  /-- Elementwise equality of two list values. -/
  pyBeqList : List PyVal → List PyVal → Bool
    | [], [] => true
    | x :: xs, y :: ys => pyBeq x y && pyBeqList xs ys
    | _, _ => false
  /-- Entrywise equality of two dictionary values (same insertion order). -/
  pyBeqDict : List (String × PyVal) → List (String × PyVal) → Bool
    | [], [] => true
    | (k, v) :: ps, (k', v') :: qs => k == k' && pyBeq v v' && pyBeqDict ps qs
    | _, _ => false

end PyVal

open PyVal

/-- `needle` occurs as a contiguous sublist of `hay` (Python substring test). -/
def listInfix (needle hay : List Char) : Bool :=
  match hay with
  | [] => needle.isEmpty
  | _ :: t => needle.isPrefixOf hay || listInfix needle t

/-- Python's `in` operator applied with a string on the left:
key membership for dictionaries, element membership for lists, substring
test for strings; a `TypeError` for the other values. -/
def pyContainsStr (container : PyVal) (k : String) : Except String Bool :=
  match container with
  | .dict kvs => .ok (alookup k kvs).isSome
  | .list xs => .ok (xs.any (fun x => pyBeq x (.str k)))
  | .str s => .ok (listInfix k.data s.data)
  | _ => .error "TypeError: argument of type is not iterable"

/-- Python subscripting `container[k]` with a string key: succeeds only on
dictionaries (and only for present keys); a `TypeError`/`KeyError`
otherwise. -/
def pyGetItem (container : PyVal) (k : String) : Except String PyVal :=
  match container with
  | .dict kvs =>
    match alookup k kvs with
    | some v => .ok v
    | none => .error ("KeyError: " ++ k)
  | _ => .error "TypeError: object is not subscriptable"

/-- Python item assignment `container[k] = v` with a string key: succeeds
only on dictionaries; a `TypeError` otherwise. -/
def pySetItem (container : PyVal) (k : String) (v : PyVal) : Except String PyVal :=
  match container with
  | .dict kvs => .ok (.dict (aset k v kvs))
  | _ => .error "TypeError: object does not support item assignment"

/-- `schema.get("type") == t` for a dictionary schema. -/
def schemaTypeIs (skvs : List (String × PyVal)) (t : String) : Bool :=
  match alookup "type" skvs with
  | some (.str s) => s == t
  | _ => false

/-- `schema.get("required", [])`. -/
def requiredList (skvs : List (String × PyVal)) : PyVal :=
  (alookup "required" skvs).getD (.list [])

/-- The path string the walker builds for property `k` below `path`. -/
def nestedPathStr (path k : String) : String :=
  if path = "" then k else path ++ "." ++ k

theorem alookup_psize_le {k : String} {v : PyVal} :
    ∀ {kvs : List (String × PyVal)}, alookup k kvs = some v →
      psize v ≤ psize.pdictSize kvs := by
  intro kvs
  induction kvs with
  | nil => intro h; simp [alookup] at h
  | cons hd tl ih =>
    intro h
    obtain ⟨k', v'⟩ := hd
    by_cases hk : k' = k
    · simp [alookup, hk] at h
      subst h
      simp [psize.pdictSize]
      omega
    · simp [alookup, hk] at h
      have := ih h
      simp [psize.pdictSize]
      omega

mutual

/--
`_validate_nested_structure` in `handlers/mcp_utility.py`, the recursive
JSON-schema walker.  Mutation of the argument tree is modelled by returning
the updated tree; `copy.deepcopy` of a default is the identity on pure
values; a raised exception is an `Except.error` carrying the message.
When `schema.get("type") == "object"` and `"properties" in schema`, walk the
properties against `data`; when `schema.get("type") == "array"` and
`"items" in schema` and the data is a list, validate each item against the
item schema with path `field[i]`; otherwise leave the data unchanged. -/
def validateNested (schema data : PyVal) (path : String) : Except String PyVal :=
  match schema with
  | .dict skvs =>
    if schemaTypeIs skvs "object" && (alookup "properties" skvs).isSome then
      match hp : alookup "properties" skvs with
      | some (.dict props) => validateProps props (requiredList skvs) data path
      | some _ => .error "AttributeError: properties object has no attribute items"
      | none => .ok data
    else if schemaTypeIs skvs "array" && (alookup "items" skvs).isSome then
      match hi : alookup "items" skvs with
      | some itemsSchema =>
        match data with
        | .list xs =>
          match validateItems itemsSchema xs path 0 with
          | .error e => .error e
          | .ok ys => .ok (.list ys)
        | _ => .ok data
      | none => .ok data
    else .ok data
  | _ => .error "AttributeError: schema object has no attribute get"
termination_by (psize schema, psize data)
decreasing_by
all_goals
  apply Prod.Lex.left
  first
  | (have h1 := alookup_psize_le hp; simp [psize] at h1 ⊢; omega)
  | (have h1 := alookup_psize_le hi; simp [psize] at h1 ⊢; omega)

/-- Property loop shared by `_validate_and_set_defaults` (with `path = ""`)
and the object branch of `_validate_nested_structure`. -/
def validateProps (props : List (String × PyVal)) (required : PyVal)
    (data : PyVal) (path : String) : Except String PyVal :=
  match props with
  | [] => .ok data
  | (k, sch) :: rest =>
    let nestedPath := nestedPathStr path k
    match pyContainsStr data k with
    | .error e => .error e
    | .ok true =>
      match pyGetItem data k with
      | .error e => .error e
      | .ok child =>
        match validateNested sch child nestedPath with
        | .error e => .error e
        | .ok child2 =>
          match pySetItem data k child2 with
          | .error e => .error e
          | .ok data2 => validateProps rest required data2 path
    | .ok false =>
      match pyContainsStr sch "default" with
      | .error e => .error e
      | .ok true =>
        match pyGetItem sch "default" with
        | .error e => .error e
        | .ok dv =>
          match pySetItem data k dv with
          | .error e => .error e
          | .ok data2 => validateProps rest required data2 path
      | .ok false =>
        match pyContainsStr required k with
        | .error e => .error e
        | .ok true => .error ("Missing required argument: " ++ nestedPath)
        | .ok false => validateProps rest required data path
termination_by (psize.pdictSize props, psize data)
decreasing_by
all_goals
  apply Prod.Lex.left
  simp only [psize.pdictSize]
  omega

/-- Item loop of the array branch of `_validate_nested_structure`. -/
def validateItems (itemsSchema : PyVal) (xs : List PyVal) (path : String)
    (i : Nat) : Except String (List PyVal) :=
  match xs with
  | [] => .ok []
  | x :: rest =>
    let itemPath :=
      if path = "" then "[" ++ toString i ++ "]"
      else path ++ "[" ++ toString i ++ "]"
    match validateNested itemsSchema x itemPath with
    | .error e => .error e
    | .ok x2 =>
      match validateItems itemsSchema rest path (i + 1) with
      | .error e => .error e
      | .ok rest2 => .ok (x2 :: rest2)
termination_by (psize itemsSchema, psize.plistSize xs)
decreasing_by
all_goals
  apply Prod.Lex.right
  simp only [psize.plistSize]
  omega

end

/--
`_validate_and_set_defaults` in `handlers/mcp_utility.py`: entry point of
argument validation for a tool call.  When
`tool_schema.get("inputSchema", {}).get("properties")` is falsy no validation
is performed; otherwise the top-level property loop runs with the
`inputSchema`'s `required` list, an empty path, and recursion into present
keys via `_validate_nested_structure`. -/
def validateAndSetDefaults (toolSchema arguments : PyVal) : Except String PyVal :=
  match toolSchema with
  | .dict tkvs =>
    match (alookup "inputSchema" tkvs).getD (.dict []) with
    | .dict ikvs =>
      let propsVal := (alookup "properties" ikvs).getD .null
      if pyTruthy propsVal then
        match propsVal with
        | .dict props =>
          validateProps props ((alookup "required" ikvs).getD (.list [])) arguments ""
        | _ => .error "AttributeError: properties object has no attribute items"
      else .ok arguments
    | _ => .error "AttributeError: inputSchema object has no attribute get"
  | _ => .error "AttributeError: tool object has no attribute get"

/-! ## Paths into argument trees and schemas

Machinery for stating where, at arbitrary nesting depth, the validator reads
and writes: a path is a sequence of dictionary keys and list indices. -/

/-- One step of a path into a JSON tree: a dictionary key or a list index. -/
inductive PathE : Type where
  | key (k : String)
  | idx (i : Nat)

/-- Follow a path through a value. -/
def dataAt : PyVal → List PathE → Option PyVal
  | v, [] => some v
  | .dict kvs, .key k :: p =>
    match alookup k kvs with
    | some v => dataAt v p
    | none => none
  | .list xs, .idx i :: p =>
    match xs[i]? with
    | some v => dataAt v p
    | none => none
  | _, _ :: _ => none

/-- The sub-schema governing one step below a schema node, following exactly
the branches `_validate_nested_structure` walks: property `k` of an
object-typed schema, or the `items` schema of an array-typed schema. -/
def schemaChild : PyVal → PathE → Option PyVal
  | .dict skvs, .key k =>
    if schemaTypeIs skvs "object" then
      match alookup "properties" skvs with
      | some (.dict props) => alookup k props
      | _ => none
    else none
  | .dict skvs, .idx _ =>
    if schemaTypeIs skvs "array" then alookup "items" skvs else none
  | _, _ => none

/-- Follow a path through a schema. -/
def schemaAt : PyVal → List PathE → Option PyVal
  | s, [] => some s
  | s, e :: p =>
    match schemaChild s e with
    | some c => schemaAt c p
    | none => none

/-- The property dictionary of an object-typed schema node has no duplicate
keys (always true of schemas arising from Python dictionaries). -/
def propsNodupAt (s : PyVal) : Prop :=
  match s with
  | .dict skvs =>
    match alookup "properties" skvs with
    | some (.dict props) => (props.map Prod.fst).Nodup
    | _ => True
  | _ => True

/-- `propsNodupAt` holds at every schema node along a path. -/
def PropsNodupAlong : PyVal → List PathE → Prop
  | s, [] => propsNodupAt s
  | s, e :: p =>
    propsNodupAt s ∧ ∀ c, schemaChild s e = some c → PropsNodupAlong c p

theorem alookup_aset_self (k : String) (v : PyVal) :
    ∀ kvs, alookup k (aset k v kvs) = some v := by
  intro kvs
  induction kvs with
  | nil => simp [aset, alookup]
  | cons hd tl ih =>
    obtain ⟨k', v'⟩ := hd
    by_cases hk : k' = k
    · simp [aset, hk, alookup]
    · simp [aset, hk, alookup, ih]

theorem alookup_aset_ne {k k' : String} (hne : k ≠ k') (v : PyVal) :
    ∀ kvs, alookup k' (aset k v kvs) = alookup k' kvs := by
  intro kvs
  induction kvs with
  | nil => simp [aset, alookup, hne]
  | cons hd tl ih =>
    obtain ⟨k0, v0⟩ := hd
    by_cases hk : k0 = k
    · subst hk
      simp [aset, alookup, hne, ih]
    · simp [aset, hk, alookup, ih]

/-- A successful property walk over a dictionary leaves every key that is not
among the walked properties untouched (and the result is a dictionary). -/
theorem validateProps_ok_untouched :
    ∀ (props : List (String × PyVal)) (required : PyVal)
      (dkvs : List (String × PyVal)) (r : PyVal) (path : String) (k : String),
      validateProps props required (.dict dkvs) path = .ok r →
      (∀ sch, (k, sch) ∉ props) →
      ∃ rkvs, r = .dict rkvs ∧ alookup k rkvs = alookup k dkvs := by
  intro props
  induction props with
  | nil =>
    intro required dkvs r path k h _
    simp [validateProps] at h
    exact ⟨dkvs, h.symm, rfl⟩
  | cons hd rest ih =>
    intro required dkvs r path k h hk
    obtain ⟨k0, sch0⟩ := hd
    have hk0 : k0 ≠ k := by
      intro he
      exact hk sch0 (by simp [he])
    have hkrest : ∀ sch, (k, sch) ∉ rest := by
      intro sch hmem
      exact hk sch (by simp [hmem])
    rw [validateProps] at h
    rw [show pyContainsStr (PyVal.dict dkvs) k0 = .ok (alookup k0 dkvs).isSome from rfl] at h
    rcases hmem : alookup k0 dkvs with _ | child
    · simp only [hmem, Option.isSome_none] at h
      rcases hdef : pyContainsStr sch0 "default" with e | b
      · simp [hdef] at h
      · simp only [hdef] at h
        cases b with
        | true =>
          rcases hget : pyGetItem sch0 "default" with e | dv
          · simp [hget] at h
          · simp only [hget, pySetItem] at h
            obtain ⟨rkvs, hr, hl⟩ := ih required (aset k0 dv dkvs) r path k h hkrest
            exact ⟨rkvs, hr, by rw [hl, alookup_aset_ne hk0]⟩
        | false =>
          rcases hreq : pyContainsStr required k0 with e | b2
          · simp [hreq] at h
          · simp only [hreq] at h
            cases b2 with
            | true => simp at h
            | false => exact ih required dkvs r path k h hkrest
    · simp only [hmem, Option.isSome_some] at h
      rw [show pyGetItem (PyVal.dict dkvs) k0 =
            (match alookup k0 dkvs with
              | some v => Except.ok v
              | none => Except.error ("KeyError: " ++ k0)) from rfl, hmem] at h
      rcases hnest : validateNested sch0 child (nestedPathStr path k0) with e | child2
      · simp [hnest] at h
      · simp only [hnest, pySetItem] at h
        obtain ⟨rkvs, hr, hl⟩ := ih required (aset k0 child2 dkvs) r path k h hkrest
        exact ⟨rkvs, hr, by rw [hl, alookup_aset_ne hk0]⟩

/-- What a successful property walk guarantees for each walked property `k`:
a missing key with a `default` ends up bound to that default; a missing key
without a `default` cannot be in the `required` list (the walk would have
raised `Missing required argument`); a present key is rebound to the result
of recursively validating its value. -/
theorem validateProps_ok_key :
    ∀ (props : List (String × PyVal)) (required : PyVal)
      (dkvs : List (String × PyVal)) (r : PyVal) (path k : String) (sch : PyVal),
      validateProps props required (.dict dkvs) path = .ok r →
      (props.map Prod.fst).Nodup →
      alookup k props = some sch →
      (alookup k dkvs = none →
        (pyContainsStr sch "default" = .ok true →
          ∃ d rkvs, pyGetItem sch "default" = .ok d ∧ r = .dict rkvs ∧
            alookup k rkvs = some d) ∧
        (pyContainsStr sch "default" = .ok false →
          ¬ pyContainsStr required k = .ok true)) ∧
      (∀ child, alookup k dkvs = some child →
        ∃ child2 rkvs, validateNested sch child (nestedPathStr path k) = .ok child2 ∧
          r = .dict rkvs ∧ alookup k rkvs = some child2) := by
  intro props
  induction props with
  | nil => intro required dkvs r path k sch _ _ hs; simp [alookup] at hs
  | cons hd rest ih =>
    intro required dkvs r path k sch h hnd hs
    obtain ⟨k0, sch0⟩ := hd
    rw [validateProps] at h
    rw [show pyContainsStr (PyVal.dict dkvs) k0 = .ok (alookup k0 dkvs).isSome from rfl] at h
    by_cases hkk : k0 = k
    · subst hkk
      have hsch : sch = sch0 := by simp [alookup] at hs; exact hs.symm
      subst hsch
      have hnd' : (k0 :: rest.map Prod.fst).Nodup := by simpa using hnd
      have hrest : ∀ s2, (k0, s2) ∉ rest := fun s2 hmem2 =>
        (List.nodup_cons.mp hnd').1 (List.mem_map.mpr ⟨(k0, s2), hmem2, rfl⟩)
      rcases hmem : alookup k0 dkvs with _ | child
      · simp only [hmem, Option.isSome_none] at h
        refine ⟨fun _ => ?_, fun child hc => Option.noConfusion hc⟩
        rcases hdef : pyContainsStr sch "default" with e | b
        · simp [hdef] at h
        · simp only [hdef] at h
          cases b with
          | true =>
            refine ⟨fun _ => ?_, fun hfalse => Bool.noConfusion (Except.ok.inj hfalse)⟩
            rcases hget : pyGetItem sch "default" with e | dv
            · simp [hget] at h
            · simp only [hget, pySetItem] at h
              obtain ⟨rkvs, hr, hl⟩ :=
                validateProps_ok_untouched rest required (aset k0 dv dkvs) r path k0 h hrest
              exact ⟨dv, rkvs, rfl, hr, by rw [hl, alookup_aset_self]⟩
          | false =>
            refine ⟨fun htrue => Bool.noConfusion (Except.ok.inj htrue), fun _ => ?_⟩
            rcases hreq : pyContainsStr required k0 with e | b2
            · simp [hreq] at h
            · simp only [hreq] at h
              cases b2 with
              | true => simp at h
              | false => exact fun hc => Bool.noConfusion (Except.ok.inj hc)
      · simp only [hmem, Option.isSome_some] at h
        refine ⟨fun habs => Option.noConfusion habs, fun child1 hc => ?_⟩
        have hcc : child = child1 := Option.some.inj hc
        subst hcc
        rw [show pyGetItem (PyVal.dict dkvs) k0 =
              (match alookup k0 dkvs with
                | some v => Except.ok v
                | none => Except.error ("KeyError: " ++ k0)) from rfl, hmem] at h
        rcases hnest : validateNested sch child (nestedPathStr path k0) with e | child2
        · simp [hnest] at h
        · simp only [hnest, pySetItem] at h
          obtain ⟨rkvs, hr, hl⟩ :=
            validateProps_ok_untouched rest required (aset k0 child2 dkvs) r path k0 h hrest
          exact ⟨child2, rkvs, rfl, hr, by rw [hl, alookup_aset_self]⟩
    · have hs2 : alookup k rest = some sch := by
        simpa [alookup, hkk] using hs
      have hnd2 : (rest.map Prod.fst).Nodup := by simp at hnd; exact hnd.2
      have hne : k0 ≠ k := hkk
      rcases hmem : alookup k0 dkvs with _ | child
      · simp only [hmem, Option.isSome_none] at h
        rcases hdef : pyContainsStr sch0 "default" with e | b
        · simp [hdef] at h
        · simp only [hdef] at h
          cases b with
          | true =>
            rcases hget : pyGetItem sch0 "default" with e | dv
            · simp [hget] at h
            · simp only [hget, pySetItem] at h
              have := ih required (aset k0 dv dkvs) r path k sch h hnd2 hs2
              rwa [alookup_aset_ne hne] at this
          | false =>
            rcases hreq : pyContainsStr required k0 with e | b2
            · simp [hreq] at h
            · simp only [hreq] at h
              cases b2 with
              | true => simp at h
              | false => exact ih required dkvs r path k sch h hnd2 hs2
      · simp only [hmem, Option.isSome_some] at h
        rw [show pyGetItem (PyVal.dict dkvs) k0 =
              (match alookup k0 dkvs with
                | some v => Except.ok v
                | none => Except.error ("KeyError: " ++ k0)) from rfl, hmem] at h
        rcases hnest : validateNested sch0 child (nestedPathStr path k0) with e | child2
        · simp [hnest] at h
        · simp only [hnest, pySetItem] at h
          have := ih required (aset k0 child2 dkvs) r path k sch h hnd2 hs2
          rwa [alookup_aset_ne hne] at this

/-- A successful item walk validates each list element in place. -/
theorem validateItems_ok_get :
    ∀ (xs : List PyVal) (itemsSchema : PyVal) (path : String) (i : Nat)
      (ys : List PyVal),
      validateItems itemsSchema xs path i = .ok ys →
      ∀ (j : Nat) (x : PyVal), xs[j]? = some x →
        ∃ (y : PyVal) (pth : String), ys[j]? = some y ∧
          validateNested itemsSchema x pth = .ok y := by
  intro xs
  induction xs with
  | nil => intro itemsSchema path i ys _ j x hj; simp at hj
  | cons x0 rest ih =>
    intro itemsSchema path i ys h j x hj
    rw [validateItems] at h
    rcases hnest : validateNested itemsSchema x0
        (if path = "" then "[" ++ toString i ++ "]"
         else path ++ "[" ++ toString i ++ "]") with e | x2
    · simp [hnest] at h
    · simp only [hnest] at h
      rcases hrest : validateItems itemsSchema rest path (i + 1) with e | rest2
      · simp [hrest] at h
      · simp only [hrest] at h
        have hys : ys = x2 :: rest2 := by
          cases h
          rfl
        subst hys
        cases j with
        | zero =>
          have hx : x0 = x := by simpa using hj
          subst hx
          exact ⟨x2, _, by simp, hnest⟩
        | succ j2 =>
          have hj2 : rest[j2]? = some x := by simpa using hj
          obtain ⟨y, pth, hy, hv⟩ := ih itemsSchema path (i + 1) rest2 hrest j2 x hj2
          exact ⟨y, pth, by simpa using hy, hv⟩

theorem schemaTypeIs_array_not_object {skvs : List (String × PyVal)} :
    schemaTypeIs skvs "array" = true → schemaTypeIs skvs "object" = false := by
  unfold schemaTypeIs
  rcases alookup "type" skvs with _ | v
  · simp
  · cases v <;> simp
    intro h
    subst h
    decide

/-- Unfold the walker at an object-typed schema node. -/
theorem validateNested_obj (skvs sprops : List (String × PyVal))
    (data : PyVal) (path : String)
    (hty : schemaTypeIs skvs "object" = true)
    (hsp : alookup "properties" skvs = some (.dict sprops)) :
    validateNested (.dict skvs) data path =
      validateProps sprops (requiredList skvs) data path := by
  rw [validateNested]
  rw [if_pos (by simp [hty, hsp])]
  split
  · rename_i props heq
    rw [hsp] at heq
    have : sprops = props := by
      cases heq
      rfl
    subst this
    rfl
  · rename_i val hdis heq
    rw [hsp] at heq
    exact (hdis sprops (Option.some.inj heq).symm).elim
  · rename_i heq
    rw [hsp] at heq
    cases heq

/-- Unfold the walker at an array-typed schema node applied to a list. -/
theorem validateNested_arr (skvs : List (String × PyVal)) (c : PyVal)
    (xs : List PyVal) (path : String)
    (htyA : schemaTypeIs skvs "array" = true)
    (hit : alookup "items" skvs = some c) :
    validateNested (.dict skvs) (.list xs) path =
      match validateItems c xs path 0 with
      | .error e => .error e
      | .ok ys => .ok (.list ys) := by
  have htyno : schemaTypeIs skvs "object" = false :=
    schemaTypeIs_array_not_object htyA
  rw [validateNested]
  rw [if_neg (by simp [htyno])]
  rw [if_pos (by simp [htyA, hit])]
  split
  · rename_i c2 heq
    rw [hit] at heq
    have : c = c2 := Option.some.inj heq
    subst this
    rfl
  · rename_i heq
    rw [hit] at heq
    cases heq

/-- Invert a `schemaChild` step through a property key. -/
theorem schemaChild_key_inv {skvs : List (String × PyVal)} {k0 : String}
    {c : PyVal} (h : schemaChild (.dict skvs) (.key k0) = some c) :
    schemaTypeIs skvs "object" = true ∧
      ∃ props, alookup "properties" skvs = some (.dict props) ∧
        alookup k0 props = some c := by
  simp only [schemaChild] at h
  by_cases hty : schemaTypeIs skvs "object" = true
  · simp only [if_pos hty] at h
    rcases hp : alookup "properties" skvs with _ | pv
    · simp only [hp] at h
      exact Option.noConfusion h
    · cases pv with
      | dict props =>
        simp only [hp] at h
        exact ⟨hty, props, rfl, h⟩
      | str s => simp only [hp] at h; exact Option.noConfusion h
      | int n => simp only [hp] at h; exact Option.noConfusion h
      | bool b => simp only [hp] at h; exact Option.noConfusion h
      | null => simp only [hp] at h; exact Option.noConfusion h
      | list xs => simp only [hp] at h; exact Option.noConfusion h
  · simp only [if_neg hty] at h
    exact Option.noConfusion h

/-- Invert a `schemaChild` step through a list index. -/
theorem schemaChild_idx_inv {skvs : List (String × PyVal)} {i : Nat}
    {c : PyVal} (h : schemaChild (.dict skvs) (.idx i) = some c) :
    schemaTypeIs skvs "array" = true ∧ alookup "items" skvs = some c := by
  simp only [schemaChild] at h
  by_cases hty : schemaTypeIs skvs "array" = true
  · simp only [if_pos hty] at h
    exact ⟨hty, h⟩
  · simp only [if_neg hty] at h
    exact Option.noConfusion h

/--
The central invariant behind the default-filling claim: when the walker
succeeds on `data`, then for every property key `k` governed by an
object-typed schema node reached along a path `p` whose data is *present*
(a dictionary `pkvs` not containing `k`):
a `default` in `k`'s schema ends up bound at `p ++ [k]` in the result, and
if there is no `default` then `k` cannot be in that node's `required` list
(else the walk would have raised `Missing required argument`). -/
theorem validateNested_path_filled :
    ∀ (p : List PathE) (schema data r : PyVal) (path : String),
      validateNested schema data path = .ok r →
      PropsNodupAlong schema p →
      ∀ (skvs sprops : List (String × PyVal)) (k : String) (sch : PyVal)
        (pkvs : List (String × PyVal)),
        schemaAt schema p = some (.dict skvs) →
        schemaTypeIs skvs "object" = true →
        alookup "properties" skvs = some (.dict sprops) →
        alookup k sprops = some sch →
        dataAt data p = some (.dict pkvs) →
        alookup k pkvs = none →
        (pyContainsStr sch "default" = .ok true →
          ∃ d, pyGetItem sch "default" = .ok d ∧
            dataAt r (p ++ [.key k]) = some d) ∧
        (pyContainsStr sch "default" = .ok false →
          ¬ pyContainsStr (requiredList skvs) k = .ok true) := by
  intro p
  induction p with
  | nil =>
    intro schema data r path h hnd skvs sprops k sch pkvs hsAt hty hsp hk hdata habs
    have hschema : schema = .dict skvs := by simpa [schemaAt] using hsAt
    subst hschema
    have hdat : data = .dict pkvs := by simpa [dataAt] using hdata
    subst hdat
    rw [validateNested_obj skvs sprops (.dict pkvs) path hty hsp] at h
    have hnd2 : (sprops.map Prod.fst).Nodup := by
      simpa [PropsNodupAlong, propsNodupAt, hsp] using hnd
    have hkey := validateProps_ok_key sprops (requiredList skvs) pkvs r path k sch
      h hnd2 hk
    obtain ⟨habs2, _⟩ := hkey
    obtain ⟨hdef, hreq⟩ := habs2 habs
    refine ⟨fun ht => ?_, hreq⟩
    obtain ⟨d, rkvs, hg, hr, hl⟩ := hdef ht
    subst hr
    exact ⟨d, hg, by simp [dataAt, hl]⟩
  | cons e p ih =>
    intro schema data r path h hnd skvs sprops k sch pkvs hsAt hty hsp hk hdata habs
    cases e with
    | key k0 =>
      cases schema with
      | dict skvs0 =>
        rw [schemaAt] at hsAt
        rcases hchild : schemaChild (.dict skvs0) (.key k0) with _ | c
        · simp only [hchild] at hsAt
          exact Option.noConfusion hsAt
        · simp only [hchild] at hsAt
          obtain ⟨hty0, props0, hp0, hk0⟩ := schemaChild_key_inv hchild
          cases data with
          | dict dkvs0 =>
            rw [dataAt] at hdata
            rcases hd0 : alookup k0 dkvs0 with _ | child
            · simp only [hd0] at hdata
              exact Option.noConfusion hdata
            · simp only [hd0] at hdata
              rw [validateNested_obj skvs0 props0 (.dict dkvs0) path hty0 hp0] at h
              obtain ⟨hnd0, hndrest⟩ := hnd
              have hnd0w : (props0.map Prod.fst).Nodup := by
                simpa [propsNodupAt, hp0] using hnd0
              have hkey := validateProps_ok_key props0 (requiredList skvs0)
                dkvs0 r path k0 c h hnd0w hk0
              obtain ⟨_, hpres⟩ := hkey
              obtain ⟨child2, rkvs, hv, hr, hl⟩ := hpres child hd0
              subst hr
              have halong : PropsNodupAlong c p := hndrest c hchild
              have hstep := ih c child child2 (nestedPathStr path k0) hv halong
                skvs sprops k sch pkvs hsAt hty hsp hk hdata habs
              refine ⟨fun ht => ?_, hstep.2⟩
              obtain ⟨d, hg, hat⟩ := hstep.1 ht
              exact ⟨d, hg, by simp [dataAt, hl, hat]⟩
          | str s => simp [dataAt] at hdata
          | int n => simp [dataAt] at hdata
          | bool b => simp [dataAt] at hdata
          | null => simp [dataAt] at hdata
          | list xs => simp [dataAt] at hdata
      | str s => simp [schemaAt, schemaChild] at hsAt
      | int n => simp [schemaAt, schemaChild] at hsAt
      | bool b => simp [schemaAt, schemaChild] at hsAt
      | null => simp [schemaAt, schemaChild] at hsAt
      | list xs => simp [schemaAt, schemaChild] at hsAt
    | idx i =>
      cases schema with
      | dict skvs0 =>
        rw [schemaAt] at hsAt
        rcases hchild : schemaChild (.dict skvs0) (.idx i) with _ | c
        · simp only [hchild] at hsAt
          exact Option.noConfusion hsAt
        · simp only [hchild] at hsAt
          obtain ⟨htyA, hit⟩ := schemaChild_idx_inv hchild
          cases data with
          | list xs =>
            rw [dataAt] at hdata
            rcases hx : xs[i]? with _ | x
            · simp only [hx] at hdata
              exact Option.noConfusion hdata
            · simp only [hx] at hdata
              rw [validateNested_arr skvs0 c xs path htyA hit] at h
              rcases hitems : validateItems c xs path 0 with e2 | ys
              · simp only [hitems] at h
                exact Except.noConfusion h
              · simp only [hitems] at h
                have hr : r = .list ys := by cases h; rfl
                subst hr
                obtain ⟨hnd0, hndrest⟩ := hnd
                obtain ⟨y, pth, hy, hv⟩ :=
                  validateItems_ok_get xs c path 0 ys hitems i x hx
                have halong : PropsNodupAlong c p := hndrest c hchild
                have hstep := ih c x y pth hv halong skvs sprops k sch pkvs hsAt
                  hty hsp hk hdata habs
                refine ⟨fun ht => ?_, hstep.2⟩
                obtain ⟨d, hg, hat⟩ := hstep.1 ht
                exact ⟨d, hg, by simp [dataAt, hy, hat]⟩
          | str s => simp [dataAt] at hdata
          | int n => simp [dataAt] at hdata
          | bool b => simp [dataAt] at hdata
          | null => simp [dataAt] at hdata
          | dict kvs0 => simp [dataAt] at hdata
      | str s => simp [schemaAt, schemaChild] at hsAt
      | int n => simp [schemaAt, schemaChild] at hsAt
      | bool b => simp [schemaAt, schemaChild] at hsAt
      | null => simp [schemaAt, schemaChild] at hsAt
      | list xs => simp [schemaAt, schemaChild] at hsAt

/-- The synthetic object schema that `_validate_and_set_defaults` walks: its
top-level loop behaves exactly like `_validate_nested_structure` on an
object-typed schema whose `properties` and `required` come from the tool's
`inputSchema`. -/
def topSchemaOf (ikvs sprops0 : List (String × PyVal)) : PyVal :=
  .dict [("type", .str "object"), ("properties", .dict sprops0),
    ("required", (alookup "required" ikvs).getD (.list []))]

theorem validateAndSetDefaults_eq_nested
    (tkvs ikvs sprops0 : List (String × PyVal)) (args : PyVal)
    (hin : alookup "inputSchema" tkvs = some (.dict ikvs))
    (hprops0 : alookup "properties" ikvs = some (.dict sprops0)) :
    validateAndSetDefaults (.dict tkvs) args =
      validateNested (topSchemaOf ikvs sprops0) args "" := by
  have hrhs : validateNested (topSchemaOf ikvs sprops0) args "" =
      validateProps sprops0 ((alookup "required" ikvs).getD (.list [])) args "" := by
    have h1 := validateNested_obj
      [("type", .str "object"), ("properties", .dict sprops0),
        ("required", (alookup "required" ikvs).getD (.list []))]
      sprops0 args ""
      (by simp [schemaTypeIs, alookup]) (by simp [alookup])
    rw [topSchemaOf, h1]
    simp [requiredList, alookup]
  rw [hrhs]
  cases sprops0 with
  | nil =>
    simp [validateAndSetDefaults, hin, hprops0, pyTruthy]
    rw [validateProps]
  | cons hd tl =>
    simp [validateAndSetDefaults, hin, hprops0, pyTruthy]

/-- C2 (amended).  For every tool schema and argument dictionary on which
validation succeeds: along any path `p` of property keys and list indices
whose data is present in the arguments, for any property `k` of the
object-typed schema node at `p` that is missing from the (present, duplicate
free) parent dictionary, a `default` declared in `k`'s schema is deep-copied
into the result at `p ++ [k]`; and if `k` has no `default` then `k` cannot
be listed in that node's `required` list, since the walk would have raised
`Missing required argument` and validation would not have succeeded.
Keys below an absent parent, and `required` names that are not also listed
in `properties`, are not reached by the walk (see the counterexample). -/
theorem c2_defaults_amended
    (tkvs ikvs sprops0 skvs sprops pkvs : List (String × PyVal))
    (args r : PyVal) (p : List PathE) (k : String) (sch : PyVal)
    (hin : alookup "inputSchema" tkvs = some (.dict ikvs))
    (hprops0 : alookup "properties" ikvs = some (.dict sprops0))
    (hrun : validateAndSetDefaults (.dict tkvs) args = .ok r)
    (hnd : PropsNodupAlong (topSchemaOf ikvs sprops0) p)
    (hsAt : schemaAt (topSchemaOf ikvs sprops0) p = some (.dict skvs))
    (hty : schemaTypeIs skvs "object" = true)
    (hsp : alookup "properties" skvs = some (.dict sprops))
    (hk : alookup k sprops = some sch)
    (hdata : dataAt args p = some (.dict pkvs))
    (habs : alookup k pkvs = none) :
    (pyContainsStr sch "default" = .ok true →
      ∃ d, pyGetItem sch "default" = .ok d ∧
        dataAt r (p ++ [.key k]) = some d) ∧
    (pyContainsStr sch "default" = .ok false →
      ¬ pyContainsStr (requiredList skvs) k = .ok true) := by
  rw [validateAndSetDefaults_eq_nested tkvs ikvs sprops0 args hin hprops0] at hrun
  exact validateNested_path_filled p (topSchemaOf ikvs sprops0) args r "" hrun hnd
    skvs sprops k sch pkvs hsAt hty hsp hk hdata habs

/-- Tool schema with a `default` two levels deep, under an optional parent
object `a` (claim C2's counterexample input). -/
def c2xTool : PyVal :=
  .dict [("inputSchema", .dict [
    ("properties", .dict [
      ("a", .dict [("type", .str "object"),
        ("properties", .dict [("b", .dict [("default", .int 5)])])])]),
    ("required", .list [])])]

/-- Tool schema whose `required` lists a name that is not in `properties`
(claim C2's second counterexample input). -/
def c2yTool : PyVal :=
  .dict [("inputSchema", .dict [
    ("properties", .dict [("a", .dict [])]),
    ("required", .list [.str "b"])])]

/--
Counterexample to claim C2 as stated.  First conjunct: validating the empty
argument dictionary against `c2xTool` succeeds but does *not* fill in the
default `5` for the missing key at depth-2 path `a.b` — the walker never
descends below the absent optional parent `a`, so the validated tree does
not contain that default.  Second conjunct: against `c2yTool`, the key `b`
is absent, listed as required and has no default, yet validation does not
fail with `MissingArgument` — it succeeds, because only keys that appear in
`properties` are checked. -/
theorem c2_defaults_counterexample :
    (¬ ∀ r, validateAndSetDefaults c2xTool (.dict []) = .ok r →
        dataAt r [.key "a", .key "b"] = some (.int 5)) ∧
    validateAndSetDefaults c2yTool (.dict []) = .ok (.dict []) := by
  constructor
  · intro hall
    have hr := hall (.dict [])
      (by simp [c2xTool, validateAndSetDefaults, validateProps, pyContainsStr,
        pyTruthy, alookup])
    simp [dataAt, alookup] at hr
  · simp [c2yTool, validateAndSetDefaults, validateProps, pyContainsStr,
      pyBeq, pyTruthy, alookup]

/-- Concrete property schema used by the C2 witness: `{"default": 5}`. -/
def c2wBSchema : PyVal := .dict [("default", .int 5)]

/-- Concrete parent schema used by the C2 witness. -/
def c2wASchema : PyVal :=
  .dict [("type", .str "object"), ("properties", .dict [("b", c2wBSchema)])]

/-- Witness for C2 (amended), at the tool schema
`{inputSchema: {properties: {a: {type: object, properties: {b: {default: 5}}}},
required: []}}` and arguments `{"a": {}}`: the parent `a` is present, the
key `b` is missing with a default, and the validated tree binds `a.b` to
`5`. -/
theorem c2_defaults_amended_witness :
    (pyContainsStr c2wBSchema "default" = .ok true →
      ∃ d, pyGetItem c2wBSchema "default" = .ok d ∧
        dataAt (.dict [("a", .dict [("b", .int 5)])])
          ([PathE.key "a"] ++ [.key "b"]) = some d) ∧
    (pyContainsStr c2wBSchema "default" = .ok false →
      ¬ pyContainsStr (requiredList [("type", .str "object"),
          ("properties", .dict [("b", c2wBSchema)])]) "b" = .ok true) :=
  c2_defaults_amended
    [("inputSchema", .dict [("properties", .dict [("a", c2wASchema)]),
      ("required", .list [])])]
    [("properties", .dict [("a", c2wASchema)]), ("required", .list [])]
    [("a", c2wASchema)]
    [("type", .str "object"), ("properties", .dict [("b", c2wBSchema)])]
    [("b", c2wBSchema)] []
    (.dict [("a", .dict [])]) (.dict [("a", .dict [("b", .int 5)])])
    [.key "a"] "b" c2wBSchema
    (by rfl) (by rfl)
    (by simp [c2wASchema, c2wBSchema, validateAndSetDefaults, validateProps,
      validateNested_obj, validateNested, pyContainsStr, pyGetItem, pySetItem,
      pyTruthy, alookup, aset, nestedPathStr, requiredList, schemaTypeIs])
    (by simp [PropsNodupAlong, propsNodupAt, topSchemaOf, schemaChild,
      c2wASchema, c2wBSchema, schemaTypeIs, alookup])
    (by simp [schemaAt, schemaChild, topSchemaOf, c2wASchema, schemaTypeIs,
      alookup])
    (by rfl) (by simp [c2wASchema, alookup]) (by rfl)
    (by simp [dataAt, alookup]) (by rfl)

/-! ## Claim C1 — function-call update and blob-store offload
(`_insert_update_mcp_function_call` / `_save_content_to_s3` in
`handlers/mcp_utility.py`) -/

/-- A minimal JSON serialiser over `PyVal`, modelling
`Serializer.json_dumps` (string escaping is not modelled; none of the
inputs considered here needs it).  `json.dumps` never returns an empty
string, and neither does this model. -/
def pyJsonDumps : PyVal → String
  | .str s => "\"" ++ s ++ "\""
  | .int n => toString n
  | .bool true => "true"
  | .bool false => "false"
  | .null => "null"
  | .list xs => "[" ++ dumpList xs ++ "]"
  | .dict kvs => "\x7b" ++ dumpDict kvs ++ "\x7d"
where
  /-- Comma-joined serialisation of list elements. -/
  dumpList : List PyVal → String
    | [] => ""
    | [x] => pyJsonDumps x
    | x :: xs => pyJsonDumps x ++ "," ++ dumpList xs
  /-- Comma-joined serialisation of dictionary entries. -/
  dumpDict : List (String × PyVal) → String
    | [] => ""
    | [(k, v)] => "\"" ++ k ++ "\":" ++ pyJsonDumps v
    | (k, v) :: kvs => "\"" ++ k ++ "\":" ++ pyJsonDumps v ++ "," ++ dumpDict kvs

/-- The observable effect of the *update* branch of
`_insert_update_mcp_function_call`: the puts issued against the blob store
and the variables dictionary sent with the `insertUpdateMcpFunctionCall`
GraphQL mutation. -/
structure UpdateCallEffect where
  /-- `(key, body)` pairs written to the blob store by `_save_content_to_s3`. -/
  s3Writes : List (String × String)
  /-- The GraphQL `variables` dictionary of the metadata update. -/
  varsKvs : List (String × PyVal)

/-- The update branch of `_insert_update_mcp_function_call`
(`handlers/mcp_utility.py`), taken when `mcp_function_call_uuid` is set:
`content_json = json_dumps(kwargs["content"]) if kwargs.get("content") else
None`; when `content_json is not None` the content is saved to the blob
store at `mcp_content/{uuid}.json`; the mutation variables carry
`hasContent = True if content_json else False` and no content field at all
(`json.dumps` never yields the empty string, so the truthiness test on
`content_json` is its is-not-`None` test). -/
def insertUpdateMcpFunctionCallUpdate (uuid : String) (content : Option PyVal)
    (status : PyVal) (timeSpent notes : Option PyVal) : UpdateCallEffect :=
  let contentJson : Option String :=
    match content with
    | some c => if pyTruthy c then some (pyJsonDumps c) else none
    | none => none
  let s3Writes :=
    match contentJson with
    | some body => [("mcp_content/" ++ uuid ++ ".json", body)]
    | none => []
  { s3Writes := s3Writes,
    varsKvs :=
      [("mcpFunctionCallUuid", .str uuid),
       ("hasContent", .bool contentJson.isSome),
       ("status", status),
       ("timeSpent", timeSpent.getD .null),
       ("notes", notes.getD .null),
       ("updatedBy", .str "mcp_daemon_engine")] }

/--
Counterexample to claim C1 as stated.  Updating call record `u1` with the
two-byte content `"hi"` — far below any per-item size budget (DynamoDB's is
400 KB) — nevertheless persists the serialised content to the blob store at
`mcp_content/u1.json` and sets `hasContent = true`; no inline content is
sent at all (the mutation variables have no content field).  The claim's
"content within the budget stays inline with `has_content = false`" is
false: the handler offloads unconditionally and never checks a size budget
(`ItemTooLarge` handling exists only in the separate store-side model layer,
not in this handler). -/
theorem c1_content_offload_counterexample :
    (pyJsonDumps (.str "hi")).length ≤ 400 * 1024 ∧
    (insertUpdateMcpFunctionCallUpdate "u1" (some (.str "hi"))
        (.str "completed") none none).s3Writes =
      [("mcp_content/u1.json", pyJsonDumps (.str "hi"))] ∧
    alookup "hasContent"
      (insertUpdateMcpFunctionCallUpdate "u1" (some (.str "hi"))
        (.str "completed") none none).varsKvs = some (.bool true) :=
  ⟨by decide, rfl, rfl⟩

/-- C1 (amended).  On every update of a function-call record: whenever the
update carries truthy content, the serialised content is persisted to the
blob store at `mcp_content/{call_uuid}.json` and `hasContent` is set true —
unconditionally, with no size-budget check; the metadata update never
carries inline content (the mutation has no content variable).  When the
update carries no (or falsy) content, nothing is written to the blob store
and `hasContent` is false. -/
theorem c1_content_offload_amended (uuid : String) (content : Option PyVal)
    (status : PyVal) (timeSpent notes : Option PyVal) :
    (∀ c, content = some c → pyTruthy c = true →
      (insertUpdateMcpFunctionCallUpdate uuid content status timeSpent
          notes).s3Writes =
        [("mcp_content/" ++ uuid ++ ".json", pyJsonDumps c)] ∧
      alookup "hasContent"
        (insertUpdateMcpFunctionCallUpdate uuid content status timeSpent
          notes).varsKvs = some (.bool true)) ∧
    ((content = none ∨ ∃ c, content = some c ∧ pyTruthy c = false) →
      (insertUpdateMcpFunctionCallUpdate uuid content status timeSpent
          notes).s3Writes = [] ∧
      alookup "hasContent"
        (insertUpdateMcpFunctionCallUpdate uuid content status timeSpent
          notes).varsKvs = some (.bool false)) ∧
    alookup "content"
      (insertUpdateMcpFunctionCallUpdate uuid content status timeSpent
        notes).varsKvs = none := by
  refine ⟨fun c hc ht => ?_, fun hfal => ?_, ?_⟩
  · subst hc
    simp [insertUpdateMcpFunctionCallUpdate, ht, alookup]
  · rcases hfal with hnone | ⟨c, hc, hf⟩
    · subst hnone
      simp [insertUpdateMcpFunctionCallUpdate, alookup]
    · subst hc
      simp [insertUpdateMcpFunctionCallUpdate, hf, alookup]
  · cases content with
    | none => simp [insertUpdateMcpFunctionCallUpdate, alookup]
    | some c =>
      by_cases ht : pyTruthy c = true
      · simp [insertUpdateMcpFunctionCallUpdate, ht, alookup]
      · simp [insertUpdateMcpFunctionCallUpdate,
          Bool.eq_false_iff.mpr ht, alookup]

/-- Witness for C1 (amended) at `uuid = "u1"`, content `"hi"`, status
`completed`. -/
theorem c1_content_offload_amended_witness :
    (insertUpdateMcpFunctionCallUpdate "u1" (some (.str "hi"))
        (.str "completed") none none).s3Writes =
      [("mcp_content/" ++ "u1" ++ ".json", pyJsonDumps (.str "hi"))] ∧
    alookup "hasContent"
      (insertUpdateMcpFunctionCallUpdate "u1" (some (.str "hi"))
        (.str "completed") none none).varsKvs = some (.bool true) :=
  (c1_content_offload_amended "u1" (some (.str "hi")) (.str "completed")
    none none).1 (.str "hi") rfl (by decide)

/-! ## Claim C7 — endpoint-id validation (`handlers/mcp_app.py`) -/

/-- Per-character model of Python's `str.isalnum` on the ASCII range
(`c.isalnum()` for a single character): letters and digits.  Python's test
is Unicode-aware and also accepts further letters/digits outside ASCII;
the theorems below restrict themselves to ASCII inputs, where this model is
exact. -/
def pyIsAlnumChar (c : Char) : Bool := c.isAlpha || c.isDigit

/-- Python `s.isalnum()`: true iff `s` is non-empty and every character is
alphanumeric. -/
def pyStrIsAlnum (s : String) : Bool :=
  !s.data.isEmpty && s.data.all pyIsAlnumChar

/-- `endpoint_id.replace("_", "").replace("-", "")`. -/
def stripUnderscoreDash (s : String) : String :=
  .mk (s.data.filter (fun c => !(c = '_' || c = '-')))

/-- The endpoint-id acceptance test repeated by every route handler in
`handlers/mcp_app.py`:
`if not endpoint_id or not endpoint_id.replace("_", "").replace("-", "").isalnum():`
raise 400; accepted otherwise. -/
def validEndpointId (s : String) : Bool :=
  !(s == "") && pyStrIsAlnum (stripUnderscoreDash s)

/-- The character class `[A-Za-z0-9_-]` named by the specification's
validation contract (spec side of the refinement; not derived from the
code). -/
def specEndpointCharClass (c : Char) : Bool :=
  c.isAlpha || c.isDigit || c = '_' || c = '-'

/-- `endpoint_id` matches the regex `[A-Za-z0-9_-]+` from the
specification's validation contract (spec side of the refinement). -/
def specEndpointRegexMatch (s : String) : Bool :=
  !s.data.isEmpty && s.data.all specEndpointCharClass

/--
Counterexample to claim C7 as stated: the endpoint id `"_"` matches the
specification's regex `[A-Za-z0-9_-]+`, yet the code rejects it with
HTTP 400 — stripping `_` and `-` leaves the empty string, and Python's
`"".isalnum()` is false. -/
theorem c7_endpoint_id_counterexample :
    specEndpointRegexMatch "_" = true ∧ validEndpointId "_" = false := by
  constructor
  · decide
  · decide

/-- C7 (amended).  An ASCII endpoint-id path segment is accepted for routing
iff every character is alphanumeric, `_` or `-`, *and* at least one
character is alphanumeric (so ids made up solely of `_`/`-`, including the
bare `"_"`, are rejected with `InvalidArgument`/HTTP 400, although they
match the spec's `[A-Za-z0-9_-]+`).  Python's alphanumeric test is
Unicode-aware; the theorem is stated for ASCII strings, where the embedded
model of `str.isalnum` is exact. -/
theorem c7_endpoint_id_amended (s : String)
    (hascii : ∀ c ∈ s.data, c.toNat < 128) :
    validEndpointId s = true ↔
      (∃ c ∈ s.data, pyIsAlnumChar c) ∧
      (∀ c ∈ s.data, specEndpointCharClass c) := by
  clear hascii
  unfold validEndpointId pyStrIsAlnum stripUnderscoreDash
  have hiso : ∀ (l : List Char), l.isEmpty = false ↔ l ≠ [] := by
    intro l
    cases l <;> simp
  simp only [Bool.and_eq_true, Bool.not_eq_true', beq_eq_false_iff_ne, ne_eq,
    hiso, List.all_eq_true]
  constructor
  · rintro ⟨hs, hne, hall⟩
    constructor
    · obtain ⟨c, hc⟩ := List.exists_mem_of_ne_nil _ hne
      exact ⟨c, (List.mem_filter.mp hc).1, hall c hc⟩
    · intro c hc
      unfold specEndpointCharClass
      by_cases hu : c = '_'
      · simp [hu]
      · by_cases hd : c = '-'
        · simp [hd]
        · have hcf : c ∈ s.data.filter (fun c => !(c = '_' || c = '-')) :=
            List.mem_filter.mpr ⟨hc, by simp [hu, hd]⟩
          have hcl := hall c hcf
          unfold pyIsAlnumChar at hcl
          simp only [Bool.or_eq_true] at hcl ⊢
          tauto
  · rintro ⟨⟨c0, hc0, hc0a⟩, hall⟩
    have hu0 : ¬ c0 = '_' := by
      intro he
      rw [he] at hc0a
      exact absurd hc0a (by decide)
    have hd0 : ¬ c0 = '-' := by
      intro he
      rw [he] at hc0a
      exact absurd hc0a (by decide)
    have hc0f : c0 ∈ s.data.filter (fun c => !(c = '_' || c = '-')) :=
      List.mem_filter.mpr ⟨hc0, by simp [hu0, hd0]⟩
    refine ⟨?_, ?_, ?_⟩
    · intro he
      rw [he] at hc0
      simp at hc0
    · intro he
      rw [List.eq_nil_iff_forall_not_mem] at he
      exact he c0 hc0f
    · intro c hc
      obtain ⟨hcs, hkeep⟩ := List.mem_filter.mp hc
      have hcl := hall c hcs
      unfold specEndpointCharClass at hcl
      unfold pyIsAlnumChar
      simp only [Bool.not_eq_true', Bool.or_eq_false_iff,
        decide_eq_false_iff_not] at hkeep
      simp only [Bool.or_eq_true, decide_eq_true_eq] at hcl ⊢
      tauto

/-- Witness for C7 (amended) at the ASCII endpoint id `"my-app_1"`. -/
theorem c7_endpoint_id_amended_witness :
    validEndpointId "my-app_1" = true ↔
      (∃ c ∈ "my-app_1".data, pyIsAlnumChar c) ∧
      (∀ c ∈ "my-app_1".data, specEndpointCharClass c) :=
  c7_endpoint_id_amended "my-app_1" (by decide)

/-! ## Claims C6 and C9 — SSE replay query (`SSEManager.get_missed_messages`
in `handlers/sse_manager.py`) -/

/-- An SSE message envelope: the manager stamps each outbound message with
the next monotonic `id` before history insertion and delivery. -/
structure SSEMsg where
  id : Nat
  body : String
deriving DecidableEq

/-- Per-character model of Python's `str.isdigit` on the Latin-1 range: the
ASCII digits and the superscript digits `¹` (U+00B9), `²` (U+00B2) and `³`
(U+00B3) — Unicode category `No`, which `str.isdigit` accepts but `int()`
does not.  Other Unicode digit characters are outside this model and none of
the inputs considered here contains one. -/
def pyCharIsDigit (c : Char) : Bool :=
  c.isDigit || c = '¹' || c = '²' || c = '³'

/-- Python `s.isdigit()`: non-empty and every character a digit. -/
def pyStrIsDigit (s : String) : Bool :=
  !s.data.isEmpty && s.data.all pyCharIsDigit

/-- Per-character model of what Python's `int()` accepts as a digit
(Unicode category `Nd`); on the Latin-1 range these are exactly the ASCII
digits. -/
def pyCharIsDecimal (c : Char) : Bool := c.isDigit

/-- `int(s)` restricted to unsigned digit strings, which is the only shape
reaching it in `get_missed_messages` (behind the `isdigit()` guard);
a non-`Nd` character raises `ValueError`. -/
def pyIntOfDigits (s : String) : Except String Nat :=
  if !s.data.isEmpty && s.data.all pyCharIsDecimal then
    .ok (s.data.foldl (fun acc c => acc * 10 + (c.toNat - 48)) 0)
  else .error "ValueError: invalid literal for int"

/-- `SSEManager.get_missed_messages` (`handlers/sse_manager.py`):
`if not last_event_id or not last_event_id.isdigit(): return []`, else
`last_id = int(last_event_id)` and return the history entries whose `id`
exceeds it, in history order.  A raised exception is an `Except.error`. -/
def getMissedMessages (lastEventId : Option String)
    (history : List SSEMsg) : Except String (List SSEMsg) :=
  match lastEventId with
  | none => .ok []
  | some s =>
    if s = "" || !pyStrIsDigit s then .ok []
    else
      match pyIntOfDigits s with
      | .error e => .error e
      | .ok lastId => .ok (history.filter (fun m => lastId < m.id))

/--
Counterexample to claim C9 as stated: the Last-Event-ID value `"²"`
(superscript two, expressible in a Latin-1 HTTP header) is not a string of
decimal digits, yet the replay query does not return the empty list — it
raises `ValueError`, because Python's `"²".isdigit()` is true while
`int("²")` fails. -/
theorem c9_last_event_id_counterexample :
    "²".data.all pyCharIsDecimal = false ∧
    getMissedMessages (some "²") [] =
      .error "ValueError: invalid literal for int" := by
  constructor
  · decide
  · rfl

/-- C9 (amended).  A Last-Event-ID that is absent, empty, or fails Python's
`str.isdigit` test yields the empty replay list without failing; but a value
that passes `isdigit` while containing a character outside the decimal
category `Nd` (such as `"²"`) raises `ValueError` instead of returning
the empty list. -/
theorem c9_last_event_id_amended :
    (∀ (lastEventId : Option String) (history : List SSEMsg),
      (lastEventId = none ∨
        ∃ s, lastEventId = some s ∧ pyStrIsDigit s = false) →
      getMissedMessages lastEventId history = .ok []) ∧
    (∀ (s : String) (history : List SSEMsg),
      pyStrIsDigit s = true → s.data.all pyCharIsDecimal = false →
      ∃ e, getMissedMessages (some s) history = .error e) := by
  constructor
  · rintro lastEventId history (hn | ⟨s, hs, hd⟩)
    · subst hn
      rfl
    · subst hs
      simp only [getMissedMessages]
      rw [if_pos (by simp [hd])]
  · intro s history hdig hdec
    have hne : s ≠ "" := by
      intro he
      subst he
      exact absurd hdig (by decide)
    simp only [getMissedMessages]
    rw [if_neg (by simp [hne, hdig])]
    simp only [pyIntOfDigits]
    rw [if_neg (by simp [hdec])]
    exact ⟨_, rfl⟩

/-- Witness for C9 (amended): `"abc"` fails the digit test and yields `[]`;
`"²"` passes it but is not decimal and raises. -/
theorem c9_last_event_id_amended_witness :
    getMissedMessages (some "abc") [] = .ok [] ∧
    ∃ e, getMissedMessages (some "²") [] = .error e :=
  ⟨c9_last_event_id_amended.1 (some "abc") []
      (Or.inr ⟨"abc", rfl, by decide⟩),
    c9_last_event_id_amended.2 "²" [] (by decide) (by decide)⟩

/-! ## Claim C10 — null tool-call arguments (`execute_tool_function` in
`handlers/mcp_utility.py`, `call_tool` in `handlers/mcp_server.py`) -/

/-- `next((tool for tool in config["tools"] if tool["name"] == name), {})`:
the subscript raises on a non-dictionary or name-less tool entry; a
non-string name compares unequal to `name`. -/
def findToolByName (tools : List PyVal) (name : String) : Except String PyVal :=
  match tools with
  | [] => .ok (.dict [])
  | t :: rest =>
    match pyGetItem t "name" with
    | .error e => .error e
    | .ok (.str n) => if n = name then .ok t else findToolByName rest name
    | .ok _ => findToolByName rest name

/-- The argument-handling slice of `execute_tool_function`
(`handlers/mcp_utility.py`): look up the tool, replace a `None` arguments
value by the empty dictionary (`if arguments is None: arguments = {}`), and
validate/fill defaults against the tool schema.  Everything downstream of
this slice (handler resolution and invocation, result classification)
depends on the arguments only through the value this slice produces. -/
def executeToolPrepare (tools : List PyVal) (name : String)
    (arguments : Option PyVal) : Except String PyVal :=
  match findToolByName tools name with
  | .error e => .error e
  | .ok tool =>
    let args := match arguments with
      | none => .dict []
      | some a => a
    validateAndSetDefaults tool args

/-- The spec's `echo` tool descriptor, used as a concrete instance:
`inputSchema: {properties: {msg: {type: string}}, required: [msg]}`. -/
def c10EchoTool : PyVal :=
  .dict [("name", .str "echo"),
    ("inputSchema", .dict [
      ("properties", .dict [("msg", .dict [("type", .str "string")])]),
      ("required", .list [.str "msg"])])]

/-- C10.  Synchronous tool execution treats a `None` arguments value exactly
like an empty argument map: the prepared (validated, default-filled)
arguments are identical for `None` and `{}` over every tool list and tool
name; in particular, against the spec's `echo` tool a `None` arguments
value produces `Missing required argument: msg` from the required-field
check run on the empty map, not a failure on the missing map itself. -/
theorem c10_null_arguments_as_empty :
    (∀ (tools : List PyVal) (name : String),
      executeToolPrepare tools name none =
        executeToolPrepare tools name (some (.dict []))) ∧
    executeToolPrepare [c10EchoTool] "echo" none =
      .error "Missing required argument: msg" := by
  constructor
  · intro tools name
    rfl
  · simp [executeToolPrepare, findToolByName, c10EchoTool, pyGetItem, alookup,
      validateAndSetDefaults, validateProps, pyContainsStr, pyTruthy, pyBeq,
      nestedPathStr]

/-! ## Claim C4 — cache invalidation on configuration mutations
(`mcp_core_graphql` in `handlers/mcp_app.py`,
`fetch_mcp_configuration` / `clear_mcp_configuration_cache` in
`handlers/config.py`) -/

/-- Polymorphic association-list lookup, modelling Python `dict` access
(used for the partition-keyed configuration cache and the SSE manager's
client and user maps). -/
def flookup {κ α : Type} [DecidableEq κ] (k : κ) : List (κ × α) → Option α
  | [] => none
  | (k2, v) :: kvs => if k2 = k then some v else flookup k kvs

/-- Python `dict` assignment `d[k] = v`: an existing key keeps its position,
a new key is appended at the end. -/
def fset {κ α : Type} [DecidableEq κ] (k : κ) (v : α) :
    List (κ × α) → List (κ × α)
  | [] => [(k, v)]
  | (k2, v2) :: kvs => if k2 = k then (k, v) :: kvs else (k2, v2) :: fset k v kvs

/-- `dict.pop(k, None)`: drop the entry for `k`. -/
def ferase {κ α : Type} [DecidableEq κ] (k : κ) (kvs : List (κ × α)) :
    List (κ × α) :=
  kvs.filter (fun p => !(p.1 = k))

theorem flookup_fset_self {κ α : Type} [DecidableEq κ] (k : κ) (v : α) :
    ∀ kvs, flookup k (fset k v kvs) = some v := by
  intro kvs
  induction kvs with
  | nil => simp [fset, flookup]
  | cons hd tl ih =>
    obtain ⟨k2, v2⟩ := hd
    by_cases hk : k2 = k
    · simp [fset, hk, flookup]
    · simp [fset, hk, flookup, ih]

theorem flookup_fset_ne {κ α : Type} [DecidableEq κ] {k k2 : κ} (hne : k ≠ k2)
    (v : α) : ∀ kvs, flookup k2 (fset k v kvs) = flookup k2 kvs := by
  intro kvs
  induction kvs with
  | nil => simp [fset, flookup, hne]
  | cons hd tl ih =>
    obtain ⟨k0, v0⟩ := hd
    by_cases hk : k0 = k
    · subst hk
      simp [fset, flookup, hne, ih]
    · simp [fset, hk, flookup, ih]

theorem flookup_ferase_self {κ α : Type} [DecidableEq κ] (k : κ) :
    ∀ (kvs : List (κ × α)), flookup k (ferase k kvs) = none := by
  intro kvs
  induction kvs with
  | nil => simp [ferase, flookup]
  | cons hd tl ih =>
    obtain ⟨k2, v2⟩ := hd
    by_cases hk : k2 = k
    · simpa [ferase, hk] using ih
    · simpa [ferase, hk, flookup] using ih

theorem flookup_ferase_ne {κ α : Type} [DecidableEq κ] {k k2 : κ}
    (hne : k ≠ k2) : ∀ (kvs : List (κ × α)),
      flookup k2 (ferase k kvs) = flookup k2 kvs := by
  intro kvs
  induction kvs with
  | nil => simp [ferase, flookup]
  | cons hd tl ih =>
    obtain ⟨k0, v0⟩ := hd
    by_cases hk : k0 = k
    · subst hk
      have hdrop : ferase k0 ((k0, v0) :: tl) = ferase k0 tl := by
        simp [ferase]
      rw [hdrop, ih, flookup, if_neg hne]
    · simp only [ferase, List.filter_cons] at ih ⊢
      simp [hk, flookup, ih]

theorem flookup_ferase_none {κ α : Type} [DecidableEq κ] {k k2 : κ}
    {kvs : List (κ × α)} (h : flookup k kvs = none) :
    flookup k (ferase k2 kvs) = none := by
  induction kvs with
  | nil => simp [ferase, flookup]
  | cons hd tl ih =>
    obtain ⟨k0, v0⟩ := hd
    by_cases hk0 : k0 = k
    · subst hk0
      simp [flookup] at h
    · simp only [flookup, if_neg hk0] at h
      by_cases hk2 : k0 = k2
      · simpa [ferase, hk2] using ih h
      · simp only [ferase, List.filter_cons]
        simpa [hk2, flookup, hk0] using ih h

/-- `_get_partition_key` (`handlers/mcp_app.py`): `endpoint_id#part_id` when
a truthy `Part-ID` header is present, else `endpoint_id`. -/
def partitionKeyOf (endpointId : String) (partId : Option String) : String :=
  match partId with
  | some p => if p ≠ "" then endpointId ++ "#" ++ p else endpointId
  | none => endpointId

/-- The six configuration-mutation names tested by `mcp_core_graphql`. -/
def configMutationNames : List String :=
  ["insertUpdateMcpFunction", "deleteMcpFunction", "insertUpdateMcpModule",
   "deleteMcpModule", "insertUpdateMcpSetting", "deleteMcpSetting"]

/-- The cache effect of the `mcp_core_graphql` endpoint
(`handlers/mcp_app.py`): when the query string contains one of the
configuration-mutation names (Python substring test) and the store's result
carries no `errors` key, the endpoint calls
`Config.clear_mcp_configuration_cache(endpoint_id)` — note: with the bare
`endpoint_id`, not the `partition_key` it computed for the store call. -/
def mcpCoreGraphqlCacheEffect (cache : List (String × PyVal))
    (endpointId : String) (query : String) (result : PyVal) :
    List (String × PyVal) :=
  let isConfigMutation :=
    configMutationNames.any (fun name => listInfix name.data query.data)
  let resultHasErrors :=
    match result with
    | .dict kvs => (alookup "errors" kvs).isSome
    | _ => false
  if isConfigMutation && !resultHasErrors then ferase endpointId cache
  else cache

/-- `fetch_mcp_configuration(partition_key)` without `force_refresh` serves
the cached entry, skipping the rebuild, exactly when the cache holds the
key (`handlers/config.py`). -/
def fetchServesCached (cache : List (String × PyVal))
    (partitionKey : String) : Bool :=
  (flookup partitionKey cache).isSome

/-- A stand-in materialised view for the C4 evaluation. -/
def c4View : PyVal := .dict [("tools", .list [])]

/--
C4 evaluated at its failing input (the claim is right; the code has a bug).
A successful `insertUpdateMcpFunction` mutation arrives at endpoint `"ep"`
with header `Part-ID: p1`, so the mutation runs against partition
`"ep#p1"` — yet the endpoint clears the cache under the bare endpoint id
`"ep"`: the materialised view cached for `"ep#p1"` survives, and the next
`fetch("ep#p1")` still serves the stale cached entry instead of
rebuilding. -/
theorem c4_mutation_cache_invalidation_bug :
    partitionKeyOf "ep" (some "p1") = "ep#p1" ∧
    configMutationNames.any
      (fun name => listInfix name.data
        "mutation insertUpdateMcpFunction(name: \"t\")".data) = true ∧
    mcpCoreGraphqlCacheEffect [("ep#p1", c4View)] "ep"
      "mutation insertUpdateMcpFunction(name: \"t\")"
      (.dict [("data", .null)]) = [("ep#p1", c4View)] ∧
    fetchServesCached
      (mcpCoreGraphqlCacheEffect [("ep#p1", c4View)] "ep"
        "mutation insertUpdateMcpFunction(name: \"t\")"
        (.dict [("data", .null)])) "ep#p1" = true := by
  refine ⟨rfl, ?_, ?_, ?_⟩
  · decide
  · rfl
  · rfl

/-! ## Claim C8 — local JWT verification (`handlers/jwt_local.py`) -/

/-- The claim set carried by a locally issued token.  `perm` and `exp` are
the fields `verify_local_jwt` inspects (`perm` truthy means permanent;
`exp` is a POSIX timestamp, modelled in whole seconds); the rest of the
payload is carried opaquely. -/
structure JwtClaims where
  perm : Option Bool
  exp : Option Int
  payload : List (String × PyVal)

/-- A token as produced by `jose.jwt.encode`: the claims together with the
secret and algorithm they were signed under. -/
structure SignedToken where
  claims : JwtClaims
  key : String
  alg : String

/-- Model of `jose.jwt.decode(token, key, algorithms=algs,
options={"verify_exp": False})`: yields the claims iff the token was signed
with the same secret under an accepted algorithm, else raises `JWTError`. -/
def joseDecode (tok : SignedToken) (key : String) (algs : List String) :
    Except String JwtClaims :=
  if tok.key = key ∧ tok.alg ∈ algs then .ok tok.claims
  else .error "JWTError: signature verification failed"

/-- `create_local_jwt` (`handlers/jwt_local.py`): a `forever` token carries
`perm: True`; otherwise `exp` is stamped `access_token_exp` minutes from
now. -/
def createLocalJwt (payload : JwtClaims) (forever : Bool) (now : Int)
    (secretKey alg : String) (accessTokenExpMinutes : Int) : SignedToken :=
  if forever then
    { claims := { payload with perm := some true }, key := secretKey, alg := alg }
  else
    { claims := { payload with exp := some (now + accessTokenExpMinutes * 60) },
      key := secretKey, alg := alg }

/-- An HTTP-level authentication failure: status code, `WWW-Authenticate`
header, detail. -/
structure AuthFailure where
  status : Nat
  wwwAuthenticate : Option String
  detail : String
deriving DecidableEq

/-- `verify_local_jwt` (`handlers/jwt_local.py`): decode with the configured
secret (expiry verification disabled); when the `perm` claim is not truthy,
reject with `JWTError("expired")` if `exp` is absent or in the past; a
`JWTError` becomes HTTP 401 with a `WWW-Authenticate: Bearer` header. -/
def verifyLocalJwt (tok : SignedToken) (now : Int)
    (secretKey alg : String) : Except AuthFailure JwtClaims :=
  match joseDecode tok secretKey [alg] with
  | .error e => .error ⟨401, some "Bearer", "Invalid JWT (" ++ e ++ ")"⟩
  | .ok claims =>
    if claims.perm ≠ some true then
      match claims.exp with
      | none => .error ⟨401, some "Bearer", "Invalid JWT (expired)"⟩
      | some e =>
        if now > e then .error ⟨401, some "Bearer", "Invalid JWT (expired)"⟩
        else .ok claims
    else .ok claims

/-- C8.  For a token signed with the configured secret under the configured
algorithm: verification succeeds with the token's claims when the token
carries `perm: true` or its `exp` timestamp has not passed (`now ≤ exp`);
and a token without truthy `perm` whose `exp` has passed is rejected with
status 401 and a `WWW-Authenticate: Bearer` header. -/
theorem c8_local_jwt_verify (tok : SignedToken) (now : Int)
    (secretKey alg : String)
    (hkey : tok.key = secretKey) (halg : tok.alg = alg) :
    ((tok.claims.perm = some true ∨
        (∃ e, tok.claims.exp = some e ∧ now ≤ e)) →
      verifyLocalJwt tok now secretKey alg = .ok tok.claims) ∧
    (tok.claims.perm ≠ some true →
      ∀ e, tok.claims.exp = some e → e < now →
        verifyLocalJwt tok now secretKey alg =
          .error ⟨401, some "Bearer", "Invalid JWT (expired)"⟩) := by
  have hdec : joseDecode tok secretKey [alg] = .ok tok.claims := by
    unfold joseDecode
    rw [if_pos ⟨hkey, by simp [halg]⟩]
  constructor
  · rintro (hperm | ⟨e, he, hle⟩)
    · unfold verifyLocalJwt
      rw [hdec]
      simp [hperm]
    · unfold verifyLocalJwt
      rw [hdec]
      by_cases hperm : tok.claims.perm = some true
      · simp [hperm]
      · simp only [ne_eq, hperm, not_false_eq_true, if_pos, he]
        rw [if_neg (by omega)]
  · intro hperm e he hlt
    unfold verifyLocalJwt
    rw [hdec]
    simp only [ne_eq, hperm, not_false_eq_true, if_pos, he]
    rw [if_pos (by omega)]

/-- Witness for C8, at a token with `exp` one minute ahead of `now = 1000`
(accepted) — applying the theorem's success branch — and, for the rejection
branch, the same theorem at an expired token without `perm`. -/
theorem c8_local_jwt_verify_witness :
    verifyLocalJwt ⟨⟨none, some 1060, []⟩, "s3cret", "HS256"⟩ 1000
        "s3cret" "HS256" = .ok ⟨none, some 1060, []⟩ ∧
    verifyLocalJwt ⟨⟨some false, some 900, []⟩, "s3cret", "HS256"⟩ 1000
        "s3cret" "HS256" =
      .error ⟨401, some "Bearer", "Invalid JWT (expired)"⟩ :=
  ⟨(c8_local_jwt_verify ⟨⟨none, some 1060, []⟩, "s3cret", "HS256"⟩ 1000
      "s3cret" "HS256" rfl rfl).1 (Or.inr ⟨1060, rfl, by decide⟩),
    (c8_local_jwt_verify ⟨⟨some false, some 900, []⟩, "s3cret", "HS256"⟩ 1000
      "s3cret" "HS256" rfl rfl).2 (by decide) 900 rfl (by decide)⟩

/-! ## Claim C3 — async dispatch polling loop
(`async_execute_tool_function` in `handlers/mcp_utility.py`) -/

/-- A function-call record as observed through the store
(`_check_existing_function_call` / `_insert_update_mcp_function_call`
responses). -/
structure CallRec where
  uuid : String
  status : String
  content : Option String
  notes : Option String

/-- An MCP tool-call content item: `TextContent` (whose `text` field is the
record's content) or an `EmbeddedResource` over `TextResourceContents`. -/
inductive ToolContent : Type where
  | text (content : Option String)
  | embedded (uri : String) (jsonText : String) (mimeType : String)

/-- The record's `notes` as a JSON value (`None` when absent). -/
def callNotesVal (r : CallRec) : PyVal :=
  match r.notes with
  | some n => .str n
  | none => .null

/-- The embedded-resource handle the dispatcher returns for a pending or
failed call: uri `mcp://function-call/{uuid}`, JSON text with the uuid,
status and notes, mime type `application/json`. -/
def functionCallHandle (r : CallRec) : ToolContent :=
  .embedded ("mcp://function-call/" ++ r.uuid)
    (pyJsonDumps (.dict [("mcp_function_call_uuid", .str r.uuid),
      ("status", .str r.status), ("notes", callNotesVal r)]))
    "application/json"

/-- The `initial → in_process` update inside the polling loop: when the
checked record's status is `initial` the dispatcher issues a status update
and continues with the store's response (the record with status
`in_process`); otherwise it keeps the checked record. -/
def pollAdvance (r : CallRec) : CallRec :=
  if r.status = "initial" then { r with status := "in_process" } else r

/-- The store writes issued at poll index `i`: an `in_process` status update
exactly when the checked record's status is `initial`. -/
def pollWrites (r : CallRec) (i : Nat) (writes : List Nat) : List Nat :=
  if r.status = "initial" then writes ++ [i] else writes

/-- The polling loop of `async_execute_tool_function`
(`while time.time() - start_time <= 3: ... time.sleep(0.5)`), with checks
and updates taking no time and each sleep advancing the clock by 0.5 s:
checks run at t = 0, 0.5, …, 3.0 — seven checks — before the loop exits.
`obs i` is the record returned by the i-th `_check_existing_function_call`;
the result pairs the returned content list with the list of poll indices at
which an `in_process` update was issued.  On `completed` the loop returns
`[TextContent(content)]`; on `failed` it breaks and falls through to the
embedded-resource handle built from that record; on loop exit (timeout) the
handle is built from the record of the last iteration (updated to
`in_process` if it was observed `initial`). -/
def asyncPollGo (obs : Nat → CallRec) :
    Nat → Nat → CallRec → List Nat → List ToolContent × List Nat
  | 0, _, last, writes => ([functionCallHandle last], writes)
  | fuel + 1, i, _, writes =>
    let r := obs i
    if r.status = "completed" then ([.text r.content], writes)
    else if r.status = "failed" then ([functionCallHandle r], writes)
    else asyncPollGo obs fuel (i + 1) (pollAdvance r) (pollWrites r i writes)

/-- The poll phase of `async_execute_tool_function` after a new call record
`created` has been inserted: seven checks within the 3-second window. -/
def asyncExecuteToolPoll (obs : Nat → CallRec) (created : CallRec) :
    List ToolContent × List Nat :=
  asyncPollGo obs 7 0 created []

theorem asyncPollGo_writes_mono (obs : Nat → CallRec) :
    ∀ (fuel i : Nat) (last : CallRec) (writes : List Nat) (x : Nat),
      x ∈ writes → x ∈ (asyncPollGo obs fuel i last writes).2 := by
  intro fuel
  induction fuel with
  | zero => intro i last writes x hx; simpa [asyncPollGo] using hx
  | succ n ih =>
    intro i last writes x hx
    rw [asyncPollGo]
    by_cases hc : (obs i).status = "completed"
    · simp [hc]
      exact hx
    · by_cases hf : (obs i).status = "failed"
      · simp [hc, hf]
        exact hx
      · simp only [hc, hf, if_neg, if_false]
        refine ih (i + 1) (pollAdvance (obs i)) (pollWrites (obs i) i writes) x ?_
        unfold pollWrites
        by_cases hini : (obs i).status = "initial" <;> simp [hini, hx]

theorem asyncPollGo_step (obs : Nat → CallRec) (fuel i : Nat) (last : CallRec)
    (writes : List Nat)
    (h1 : (obs i).status ≠ "completed") (h2 : (obs i).status ≠ "failed") :
    asyncPollGo obs (fuel + 1) i last writes =
      asyncPollGo obs fuel (i + 1) (pollAdvance (obs i))
        (pollWrites (obs i) i writes) := by
  rw [asyncPollGo]
  simp [h1, h2]

theorem c3_poll_aux (obs : Nat → CallRec) :
    ∀ (i fuel i0 : Nat) (last : CallRec) (writes : List Nat),
      i < fuel →
      (∀ j, j < i → (obs (i0 + j)).status ≠ "completed" ∧
        (obs (i0 + j)).status ≠ "failed") →
      ((obs (i0 + i)).status = "completed" →
        (asyncPollGo obs fuel i0 last writes).1 = [.text (obs (i0 + i)).content]) ∧
      ((obs (i0 + i)).status = "failed" →
        (asyncPollGo obs fuel i0 last writes).1 =
          [functionCallHandle (obs (i0 + i))]) ∧
      ((obs (i0 + i)).status = "initial" →
        (i0 + i) ∈ (asyncPollGo obs fuel i0 last writes).2) := by
  intro i
  induction i with
  | zero =>
    intro fuel i0 last writes hf _
    obtain ⟨f2, rfl⟩ : ∃ f2, fuel = f2 + 1 := ⟨fuel - 1, by omega⟩
    refine ⟨fun hc => ?_, fun hfl => ?_, fun hini => ?_⟩
    · simp only [Nat.add_zero] at hc ⊢
      rw [asyncPollGo]
      simp [hc]
    · simp only [Nat.add_zero] at hfl ⊢
      rw [asyncPollGo]
      simp [hfl]
    · rw [asyncPollGo_step obs f2 i0 last writes
        (by simp only [Nat.add_zero] at hini; simp [hini])
        (by simp only [Nat.add_zero] at hini; simp [hini])]
      refine asyncPollGo_writes_mono obs f2 (i0 + 1) (pollAdvance (obs i0))
        (pollWrites (obs i0) i0 writes) (i0 + 0) ?_
      unfold pollWrites
      simp only [Nat.add_zero] at hini ⊢
      simp [hini]
  | succ m ih =>
    intro fuel i0 last writes hf hpre
    have h0 := hpre 0 (by omega)
    simp only [Nat.add_zero] at h0
    obtain ⟨f2, rfl⟩ : ∃ f2, fuel = f2 + 1 := ⟨fuel - 1, by omega⟩
    rw [asyncPollGo_step obs f2 i0 last writes h0.1 h0.2]
    have hrec := ih f2 (i0 + 1) (pollAdvance (obs i0))
      (pollWrites (obs i0) i0 writes) (by omega)
      (fun j hj => by
        have := hpre (j + 1) (by omega)
        simpa [Nat.add_assoc, Nat.add_comm 1 j] using this)
    have harith : i0 + 1 + m = i0 + (m + 1) := by omega
    rw [harith] at hrec
    exact hrec

theorem c3_timeout_aux (obs : Nat → CallRec) :
    ∀ (fuel i0 : Nat) (last : CallRec) (writes : List Nat),
      1 ≤ fuel →
      (∀ j, j < fuel → (obs (i0 + j)).status ≠ "completed" ∧
        (obs (i0 + j)).status ≠ "failed") →
      (asyncPollGo obs fuel i0 last writes).1 =
        [functionCallHandle (pollAdvance (obs (i0 + fuel - 1)))] := by
  intro fuel
  induction fuel with
  | zero => intro i0 last writes h; omega
  | succ n ih =>
    intro i0 last writes _ hnt
    have h0 := hnt 0 (by omega)
    simp only [Nat.add_zero] at h0
    rw [asyncPollGo_step obs n i0 last writes h0.1 h0.2]
    cases n with
    | zero =>
      rw [asyncPollGo]
      simp
    | succ n2 =>
      have hrec := ih (i0 + 1) (pollAdvance (obs i0))
        (pollWrites (obs i0) i0 writes) (by omega)
        (fun j hj => by
          have := hnt (j + 1) (by omega)
          simpa [Nat.add_assoc, Nat.add_comm 1 j] using this)
      have harith : i0 + 1 + (n2 + 1) - 1 = i0 + (n2 + 1 + 1) - 1 := by omega
      rw [harith] at hrec
      exact hrec

/-- C3.  For every async dispatch that created a new call record: the
dispatcher polls for up to 3 seconds, sleeping 0.5 s between checks (seven
checks at t = 0, 0.5, …, 3.0 in the zero-cost-check model).  If the i-th
check (all earlier ones non-terminal) observes `completed`, it returns
`[TextContent(content)]`; if it observes `failed`, it returns the
embedded-resource handle `mcp://function-call/{uuid}` whose JSON text
carries the uuid, status and notes; if it observes `initial`, an
`in_process` status update is issued at that poll (in particular at the
first poll that observes `initial`); and if every check in the window is
non-terminal, the dispatcher returns the embedded-resource handle carrying
the current (last observed, possibly just-updated) status. -/
theorem c3_async_poll_loop (obs : Nat → CallRec) (created : CallRec)
    (i : Nat) (hi : i ≤ 6)
    (hpre : ∀ j, j < i → (obs j).status ≠ "completed" ∧
      (obs j).status ≠ "failed") :
    ((obs i).status = "completed" →
      (asyncExecuteToolPoll obs created).1 = [.text (obs i).content]) ∧
    ((obs i).status = "failed" →
      (asyncExecuteToolPoll obs created).1 = [functionCallHandle (obs i)]) ∧
    ((obs i).status = "initial" →
      i ∈ (asyncExecuteToolPoll obs created).2) ∧
    ((∀ j, j ≤ 6 → (obs j).status ≠ "completed" ∧ (obs j).status ≠ "failed") →
      (asyncExecuteToolPoll obs created).1 =
        [functionCallHandle (pollAdvance (obs 6))]) := by
  have haux := c3_poll_aux obs i 7 0 created [] (by omega)
    (fun j hj => by simpa using hpre j hj)
  simp only [Nat.zero_add] at haux
  refine ⟨haux.1, haux.2.1, haux.2.2, fun hall => ?_⟩
  have := c3_timeout_aux obs 7 0 created [] (by omega)
    (fun j hj => by simpa using hall j (by omega))
  simpa using this

/-- Oracle for the C3 witness: the record is `initial` on poll 0 and
`completed` with content `"42"` from poll 1 on. -/
def c3WitnessObs (i : Nat) : CallRec :=
  if i = 0 then ⟨"u7", "initial", none, none⟩
  else ⟨"u7", "completed", some "42", none⟩

/-- Witness for C3, at an oracle that reports `initial` on the first poll
and `completed` (with content `"42"`) on the second. -/
theorem c3_async_poll_loop_witness :
    ((c3WitnessObs 1).status = "completed" →
      (asyncExecuteToolPoll c3WitnessObs (c3WitnessObs 0)).1 =
        [.text (c3WitnessObs 1).content]) ∧
    ((c3WitnessObs 1).status = "failed" →
      (asyncExecuteToolPoll c3WitnessObs (c3WitnessObs 0)).1 =
        [functionCallHandle (c3WitnessObs 1)]) ∧
    ((c3WitnessObs 1).status = "initial" →
      1 ∈ (asyncExecuteToolPoll c3WitnessObs (c3WitnessObs 0)).2) ∧
    ((∀ j, j ≤ 6 → (c3WitnessObs j).status ≠ "completed" ∧
        (c3WitnessObs j).status ≠ "failed") →
      (asyncExecuteToolPoll c3WitnessObs (c3WitnessObs 0)).1 =
        [functionCallHandle (pollAdvance (c3WitnessObs 6))]) :=
  c3_async_poll_loop c3WitnessObs (c3WitnessObs 0) 1 (by decide)
    (fun j hj => by
      interval_cases j
      exact ⟨by decide, by decide⟩)

/-! ### SSE manager (`handlers/sse_manager.py`)

`SSEManager` holds `_clients : Dict[int, asyncio.Queue]`,
`_user_clients : Dict[str, Set[int]]`, a `_message_history` deque with
`maxlen=1000`, and `count(1)` id iterators for clients and messages.
Queues are modelled by their lists of pending messages; Python's
insertion-ordered `dict` is an association list and a `set` of client ids
a list without duplicates.  The `seq` fields hold the last value the
corresponding `count(1)` iterator yielded (`0` before the first `next`). -/

structure SSEState where
  clients : List (Nat × List SSEMsg)
  userClients : List (String × List Nat)
  history : List SSEMsg
  msgSeq : Nat
  clientSeq : Nat

/-- `max_queue_size = 100` (`asyncio.Queue(maxsize=self._max_queue_size)`). -/
def sseMaxQueueSize : Nat := 100

/-- `max_history = 1000` (`deque(maxlen=max_history)`). -/
def sseMaxHistory : Nat := 1000

/-- A fresh `SSEManager()`: empty maps and history, no id handed out yet. -/
def initialSSEState : SSEState :=
  { clients := [], userClients := [], history := [], msgSeq := 0,
    clientSeq := 0 }

/-- `deque.append` on a deque with `maxlen`: append on the right, then drop
from the left down to `maxLen` entries. -/
def pushRing (maxLen : Nat) (h : List SSEMsg) (m : SSEMsg) : List SSEMsg :=
  let h2 := h ++ [m]
  h2.drop (h2.length - maxLen)

/-- `add_client(username)`: allocate the next client id, register an empty
queue and `setdefault(username, set()).add(client_id)`. -/
def addClient (username : String) (s : SSEState) : Nat × SSEState :=
  let cid := s.clientSeq + 1
  let ids := (flookup username s.userClients).getD []
  let ids2 := if cid ∈ ids then ids else ids ++ [cid]
  (cid, { s with
      clientSeq := cid
      clients := fset cid [] s.clients
      userClients := fset username ids2 s.userClients })

/-- `remove_client(client_id, username)`: pop the client's queue, discard the
id from the named user's set, deleting the set when it empties; returns
whether a queue was actually removed. -/
def removeClient (cid : Nat) (username : String) (s : SSEState) :
    Bool × SSEState :=
  let removed := (flookup cid s.clients).isSome
  let ucs :=
    match flookup username s.userClients with
    | none => s.userClients
    | some ids =>
      let ids2 := ids.filter (fun x => !(x = cid))
      if ids2.isEmpty then ferase username s.userClients
      else fset username ids2 s.userClients
  (removed, { s with clients := ferase cid s.clients, userClients := ucs })

/-- The `_user_clients` half of `_cleanup_dead_client(client_id)`: discard
the id from every user's set and delete the sets that empty. -/
def cleanupUserClients (cid : Nat) (ucs : List (String × List Nat)) :
    List (String × List Nat) :=
  (ucs.map (fun p => (p.1, p.2.filter (fun x => !(x = cid))))).filter
    (fun p => !p.2.isEmpty)

/-- `_cleanup_dead_client(client_id)`: pop the client's queue and scrub the
user map. -/
def cleanupDeadClient (cid : Nat) (s : SSEState) : SSEState :=
  { s with
      clients := ferase cid s.clients
      userClients := cleanupUserClients cid s.userClients }

/-- Shared preamble of `broadcast_message` and `send_to_client`: draw
`next(self._message_id_seq)`, stamp it into the message
(`dict(message, id=message_id)`) and append the stamped message to the
bounded history. -/
def allocMessage (body : String) (s : SSEState) : SSEMsg × SSEState :=
  let env : SSEMsg := { id := s.msgSeq + 1, body := body }
  (env, { s with
      msgSeq := s.msgSeq + 1
      history := pushRing sseMaxHistory s.history env })

/-- `send_to_client(client_id, message)`: stamp and record the message; an
unregistered client returns `False`; `put_nowait` succeeds iff the queue is
below capacity, and `QueueFull` evicts the client via
`_cleanup_dead_client` and returns `False`. -/
def sendToClient (cid : Nat) (body : String) (s : SSEState) :
    Bool × SSEState :=
  let r := allocMessage body s
  match flookup cid r.2.clients with
  | none => (false, r.2)
  | some q =>
    if q.length < sseMaxQueueSize then
      (true, { r.2 with clients := fset cid (q ++ [r.1]) r.2.clients })
    else (false, cleanupDeadClient cid r.2)

/-- `broadcast_message(message)`: stamp and record once, `put_nowait` into
every registered queue, collecting the full ones as `dead_clients`, then
`_cleanup_dead_client` each of those; returns the success count. -/
def broadcastMessage (body : String) (s : SSEState) : Nat × SSEState :=
  let r := allocMessage body s
  let clients2 := r.2.clients.map
    (fun p => if p.2.length < sseMaxQueueSize then (p.1, p.2 ++ [r.1]) else p)
  let dead := (r.2.clients.filter
    (fun p => !decide (p.2.length < sseMaxQueueSize))).map Prod.fst
  let succ := (r.2.clients.filter
    (fun p => decide (p.2.length < sseMaxQueueSize))).length
  (succ, dead.foldl (fun st c => cleanupDeadClient c st)
    { r.2 with clients := clients2 })

/-- `send_to_user(username, message)`: snapshot the user's client ids,
return `False` when there are none, else `send_to_client` each, or-ing the
per-client results. -/
def sendToUser (username : String) (body : String) (s : SSEState) :
    Bool × SSEState :=
  let ids := (flookup username s.userClients).getD []
  if ids.isEmpty then (false, s)
  else ids.foldl
    (fun acc cid =>
      let r := sendToClient cid body acc.2
      (acc.1 || r.1, r.2))
    (false, s)

/-- The stream writer's `queue.get()` (`sse_event_generator`): pop the head
of a client's pending queue. -/
def dequeueClient (cid : Nat) (s : SSEState) : SSEState :=
  match flookup cid s.clients with
  | some (m :: q) => { s with clients := fset cid q s.clients }
  | _ => s

/-- `cleanup_all()`: clear both maps and the message history. -/
def cleanupAll (s : SSEState) : SSEState :=
  { s with clients := [], userClients := [], history := [] }

/-- One operation of the SSE manager, as invoked from the application.  The
`replayPut` step is the blocking `await queue.put(msg)` of the replay loop
in `get_sse_stream` (`handlers/mcp_app.py`), which completes only while the
queue is below capacity and does not stamp a fresh id. -/
inductive SSEStep : SSEState → SSEState → Prop where
  | add (username : String) (s : SSEState) :
      SSEStep s (addClient username s).2
  | remove (cid : Nat) (username : String) (s : SSEState) :
      SSEStep s (removeClient cid username s).2
  | send (cid : Nat) (body : String) (s : SSEState) :
      SSEStep s (sendToClient cid body s).2
  | bcast (body : String) (s : SSEState) :
      SSEStep s (broadcastMessage body s).2
  | sendUser (username body : String) (s : SSEState) :
      SSEStep s (sendToUser username body s).2
  | dequeue (cid : Nat) (s : SSEState) :
      SSEStep s (dequeueClient cid s)
  | replayPut (cid : Nat) (m : SSEMsg) (q : List SSEMsg) (s : SSEState)
      (hq : flookup cid s.clients = some q)
      (hlen : q.length < sseMaxQueueSize) :
      SSEStep s { s with clients := fset cid (q ++ [m]) s.clients }
  | cleanup (s : SSEState) : SSEStep s (cleanupAll s)

/-- Manager states reachable from a fresh `SSEManager()`. -/
def SSEReachable (s : SSEState) : Prop :=
  Relation.ReflTransGen SSEStep initialSSEState s

/-! #### Queue bound and eviction (claim C5) -/

theorem flookup_fset_cases {κ α : Type} [DecidableEq κ] (k k2 : κ) (v : α)
    (kvs : List (κ × α)) :
    flookup k2 (fset k v kvs) =
      if k = k2 then some v else flookup k2 kvs := by
  by_cases h : k = k2
  · subst h
    rw [if_pos rfl, flookup_fset_self]
  · rw [if_neg h, flookup_fset_ne h]

theorem flookup_ferase_lookup {κ α : Type} [DecidableEq κ] {k k2 : κ}
    {kvs : List (κ × α)} {v : α} (h : flookup k2 (ferase k kvs) = some v) :
    flookup k2 kvs = some v := by
  by_cases hk : k = k2
  · subst hk
    rw [flookup_ferase_self] at h
    exact Option.noConfusion h
  · rwa [flookup_ferase_ne hk] at h

theorem flookup_mem {κ α : Type} [DecidableEq κ] {k : κ} {v : α} :
    ∀ {kvs : List (κ × α)}, flookup k kvs = some v → (k, v) ∈ kvs := by
  intro kvs
  induction kvs with
  | nil => intro h; exact Option.noConfusion h
  | cons hd tl ih =>
    obtain ⟨k0, v0⟩ := hd
    intro h
    rw [flookup] at h
    by_cases hk : k0 = k
    · subst hk
      rw [if_pos rfl] at h
      rw [← Option.some.inj h]
      exact List.mem_cons_self _ _
    · rw [if_neg hk] at h
      exact List.mem_cons_of_mem _ (ih h)

/-- Every queue registered in a client map holds at most
`sseMaxQueueSize` messages. -/
def QueueBoundL (cl : List (Nat × List SSEMsg)) : Prop :=
  ∀ cid q, flookup cid cl = some q → q.length ≤ sseMaxQueueSize

/-- The C5 invariant on a manager state. -/
def QueueBound (s : SSEState) : Prop := QueueBoundL s.clients

theorem qbl_fset {cl : List (Nat × List SSEMsg)} (h : QueueBoundL cl)
    (cid : Nat) {q : List SSEMsg} (hq : q.length ≤ sseMaxQueueSize) :
    QueueBoundL (fset cid q cl) := by
  intro c2 q2 h2
  rw [flookup_fset_cases] at h2
  by_cases hc : cid = c2
  · rw [if_pos hc] at h2
    rw [← Option.some.inj h2]
    exact hq
  · rw [if_neg hc] at h2
    exact h c2 q2 h2

theorem qbl_ferase {cl : List (Nat × List SSEMsg)} (h : QueueBoundL cl)
    (c : Nat) : QueueBoundL (ferase c cl) := by
  intro c2 q2 h2
  exact h c2 q2 (flookup_ferase_lookup h2)

theorem flookup_bcast_map (env : SSEMsg) :
    ∀ (cl : List (Nat × List SSEMsg)) (c : Nat) (q : List SSEMsg),
      flookup c (cl.map
        (fun p => if p.2.length < sseMaxQueueSize then (p.1, p.2 ++ [env])
                  else p)) = some q →
      ∃ q0, flookup c cl = some q0 ∧
        ((q0.length < sseMaxQueueSize ∧ q = q0 ++ [env]) ∨ q = q0) := by
  intro cl
  induction cl with
  | nil => intro c q h; exact Option.noConfusion h
  | cons hd tl ih =>
    obtain ⟨k0, q0⟩ := hd
    intro c q h
    rw [List.map_cons] at h
    by_cases hr : q0.length < sseMaxQueueSize
    · rw [if_pos hr] at h
      rw [show flookup c ((k0, q0 ++ [env]) ::
          tl.map (fun p => if p.2.length < sseMaxQueueSize
            then (p.1, p.2 ++ [env]) else p)) =
        if k0 = c then some (q0 ++ [env])
        else flookup c (tl.map (fun p => if p.2.length < sseMaxQueueSize
          then (p.1, p.2 ++ [env]) else p)) from rfl] at h
      by_cases hc : k0 = c
      · rw [if_pos hc] at h
        refine ⟨q0, ?_, Or.inl ⟨hr, (Option.some.inj h).symm⟩⟩
        rw [flookup, if_pos hc]
      · rw [if_neg hc] at h
        obtain ⟨q3, hq3, hcase⟩ := ih c q h
        exact ⟨q3, by rw [flookup, if_neg hc]; exact hq3, hcase⟩
    · rw [if_neg hr] at h
      rw [show flookup c ((k0, q0) ::
          tl.map (fun p => if p.2.length < sseMaxQueueSize
            then (p.1, p.2 ++ [env]) else p)) =
        if k0 = c then some q0
        else flookup c (tl.map (fun p => if p.2.length < sseMaxQueueSize
          then (p.1, p.2 ++ [env]) else p)) from rfl] at h
      by_cases hc : k0 = c
      · rw [if_pos hc] at h
        refine ⟨q0, ?_, Or.inr (Option.some.inj h).symm⟩
        rw [flookup, if_pos hc]
      · rw [if_neg hc] at h
        obtain ⟨q3, hq3, hcase⟩ := ih c q h
        exact ⟨q3, by rw [flookup, if_neg hc]; exact hq3, hcase⟩

theorem qb_cleanupDead {s : SSEState} (h : QueueBound s) (c : Nat) :
    QueueBound (cleanupDeadClient c s) :=
  qbl_ferase h c

theorem qb_foldl_cleanup :
    ∀ (ds : List Nat) (s : SSEState), QueueBound s →
      QueueBound (ds.foldl (fun st c => cleanupDeadClient c st) s) := by
  intro ds
  induction ds with
  | nil => intro s h; exact h
  | cons d ds ih =>
    intro s h
    simp only [List.foldl_cons]
    exact ih _ (qb_cleanupDead h d)

theorem qb_sendToClient {s : SSEState} (h : QueueBound s) (cid : Nat)
    (body : String) : QueueBound (sendToClient cid body s).2 := by
  simp only [sendToClient]
  split
  · intro c q hq
    dsimp only [allocMessage] at hq
    exact h c q hq
  · split
    · rename_i q heq hr
      intro c q2 hq2
      dsimp only [allocMessage] at hq2
      refine qbl_fset h cid ?_ c q2 hq2
      simp only [List.length_append, List.length_cons, List.length_nil]
      exact hr
    · intro c q2 hq2
      dsimp only [cleanupDeadClient, allocMessage] at hq2
      exact qbl_ferase h cid c q2 hq2

theorem qb_broadcast {s : SSEState} (h : QueueBound s) (body : String) :
    QueueBound (broadcastMessage body s).2 := by
  simp only [broadcastMessage]
  refine qb_foldl_cleanup _ _ ?_
  intro c q hq
  dsimp only [allocMessage] at hq
  obtain ⟨q0, hq0, hcase⟩ := flookup_bcast_map _ _ _ _ hq
  rcases hcase with ⟨hr, rfl⟩ | rfl
  · simp only [List.length_append, List.length_cons, List.length_nil]
    omega
  · exact h c _ hq0

theorem qb_foldl_send (body : String) :
    ∀ (ids : List Nat) (acc : Bool × SSEState), QueueBound acc.2 →
      QueueBound (ids.foldl (fun acc cid =>
        (acc.1 || (sendToClient cid body acc.2).1,
         (sendToClient cid body acc.2).2)) acc).2 := by
  intro ids
  induction ids with
  | nil => intro acc h; exact h
  | cons i ids ih =>
    intro acc h
    simp only [List.foldl_cons]
    exact ih _ (qb_sendToClient h i body)

theorem qb_sendToUser {s : SSEState} (h : QueueBound s) (u body : String) :
    QueueBound (sendToUser u body s).2 := by
  simp only [sendToUser]
  by_cases he : ((flookup u s.userClients).getD []).isEmpty
  · rw [if_pos he]
    exact h
  · rw [if_neg he]
    exact qb_foldl_send body _ (false, s) h

theorem qb_addClient {s : SSEState} (h : QueueBound s) (u : String) :
    QueueBound (addClient u s).2 :=
  qbl_fset h (s.clientSeq + 1) (Nat.zero_le _)

theorem qb_removeClient {s : SSEState} (h : QueueBound s) (c : Nat)
    (u : String) : QueueBound (removeClient c u s).2 :=
  qbl_ferase h c

theorem qb_dequeue {s : SSEState} (h : QueueBound s) (c : Nat) :
    QueueBound (dequeueClient c s) := by
  simp only [dequeueClient]
  cases hl : flookup c s.clients with
  | none => exact h
  | some q =>
    cases q with
    | nil => exact h
    | cons m q =>
      refine qbl_fset h c ?_
      have hb := h c (m :: q) hl
      simp only [List.length_cons] at hb
      omega

theorem qb_step {s s2 : SSEState} (hstep : SSEStep s s2)
    (h : QueueBound s) : QueueBound s2 := by
  cases hstep with
  | add u s => exact qb_addClient h u
  | remove c u s => exact qb_removeClient h c u
  | send c body s => exact qb_sendToClient h c body
  | bcast body s => exact qb_broadcast h body
  | sendUser u body s => exact qb_sendToUser h u body
  | dequeue c s => exact qb_dequeue h c
  | replayPut c m q s hq hlen =>
    refine qbl_fset h c ?_
    simp only [List.length_append, List.length_cons, List.length_nil]
    omega
  | cleanup s =>
    intro c q hq
    simp only [cleanupAll, flookup] at hq
    exact Option.noConfusion hq

theorem sse_reachable_queueBound {s : SSEState} (h : SSEReachable s) :
    QueueBound s := by
  simp only [SSEReachable] at h
  induction h with
  | refl =>
    intro c q hq
    simp only [initialSSEState, flookup] at hq
    exact Option.noConfusion hq
  | tail hr hstep ih => exact qb_step hstep ih

/-- `_cleanup_dead_client(cid)` leaves no trace of `cid`: no queue and no
membership in any user's client-id set. -/
def CleanOf (cid : Nat) (s : SSEState) : Prop :=
  flookup cid s.clients = none ∧ ∀ p ∈ s.userClients, cid ∉ p.2

theorem mem_cleanupUserClients {c : Nat} {ucs : List (String × List Nat)}
    {p : String × List Nat} (hp : p ∈ cleanupUserClients c ucs) :
    ∃ p0 ∈ ucs, p.2 = p0.2.filter (fun x => !(x = c)) := by
  simp only [cleanupUserClients, List.mem_filter, List.mem_map] at hp
  obtain ⟨⟨p0, hp0, rfl⟩, hne⟩ := hp
  exact ⟨p0, hp0, rfl⟩

theorem cleanOf_cleanupDead (cid : Nat) (s : SSEState) :
    CleanOf cid (cleanupDeadClient cid s) := by
  refine ⟨flookup_ferase_self cid s.clients, ?_⟩
  intro p hp
  obtain ⟨p0, hp0, hfe⟩ := mem_cleanupUserClients hp
  intro hmem
  rw [hfe] at hmem
  simp at hmem

theorem cleanOf_preserved (cid c : Nat) {s : SSEState} (h : CleanOf cid s) :
    CleanOf cid (cleanupDeadClient c s) := by
  refine ⟨flookup_ferase_none h.1, ?_⟩
  intro p hp
  obtain ⟨p0, hp0, hfe⟩ := mem_cleanupUserClients hp
  intro hmem
  rw [hfe] at hmem
  exact h.2 p0 hp0 (List.mem_filter.mp hmem).1

theorem cleanOf_foldl (cid : Nat) :
    ∀ (ds : List Nat) (s : SSEState), cid ∈ ds ∨ CleanOf cid s →
      CleanOf cid (ds.foldl (fun st c => cleanupDeadClient c st) s) := by
  intro ds
  induction ds with
  | nil =>
    intro s h
    rcases h with h | h
    · exact absurd h (List.not_mem_nil cid)
    · exact h
  | cons d ds ih =>
    intro s h
    simp only [List.foldl_cons]
    rcases h with h | h
    · rcases List.mem_cons.mp h with rfl | hmem
      · exact ih _ (Or.inr (cleanOf_cleanupDead cid s))
      · exact ih _ (Or.inl hmem)
    · exact ih _ (Or.inr (cleanOf_preserved cid d h))

theorem cleanOf_lookup {cid : Nat} {s : SSEState} (h : CleanOf cid s) :
    flookup cid s.clients = none ∧
    ∀ u ids, flookup u s.userClients = some ids → cid ∉ ids :=
  ⟨h.1, fun u ids hl => h.2 (u, ids) (flookup_mem hl)⟩

/-- A state with one registered client whose queue is at capacity. -/
def c5FullQueue : List SSEMsg := List.replicate sseMaxQueueSize ⟨0, ""⟩

def c5FullState : SSEState :=
  { clients := [(1, c5FullQueue)], userClients := [("alice", [1])],
    history := [], msgSeq := 0, clientSeq := 1 }

/--
**Claim C5.** For every SSE client, the pending-message queue never holds
more than 100 messages (`sseMaxQueueSize`) in any state reachable from a
fresh manager; and a send whose enqueue fails because the queue is full
evicts that client — after `send_to_client` on a full queue the operation
returns `False` and the client is gone from the client map and from every
user's client-id set, and likewise a `broadcast_message` that finds the
client's queue full removes it from the client map and every user set. -/
theorem c5_queue_bound_and_eviction :
    (∀ s : SSEState, SSEReachable s →
      ∀ cid q, flookup cid s.clients = some q →
        q.length ≤ sseMaxQueueSize) ∧
    (∀ (s : SSEState) (cid : Nat) (q : List SSEMsg) (body : String),
      flookup cid s.clients = some q → ¬ q.length < sseMaxQueueSize →
        (sendToClient cid body s).1 = false ∧
        flookup cid (sendToClient cid body s).2.clients = none ∧
        ∀ u ids, flookup u (sendToClient cid body s).2.userClients =
          some ids → cid ∉ ids) ∧
    (∀ (s : SSEState) (cid : Nat) (q : List SSEMsg) (body : String),
      flookup cid s.clients = some q → ¬ q.length < sseMaxQueueSize →
        flookup cid (broadcastMessage body s).2.clients = none ∧
        ∀ u ids, flookup u (broadcastMessage body s).2.userClients =
          some ids → cid ∉ ids) := by
  refine ⟨?_, ?_, ?_⟩
  · intro s hr cid q hq
    exact sse_reachable_queueBound hr cid q hq
  · intro s cid q body hq hfull
    have hq1 : flookup cid (allocMessage body s).2.clients = some q := by
      dsimp only [allocMessage]
      exact hq
    have hred : sendToClient cid body s =
        (false, cleanupDeadClient cid (allocMessage body s).2) := by
      simp only [sendToClient]
      rw [hq1]
      dsimp only
      rw [if_neg hfull]
    refine ⟨by rw [hred], ?_, ?_⟩
    · rw [hred]
      dsimp only [cleanupDeadClient, allocMessage]
      exact flookup_ferase_self cid s.clients
    · intro u ids hids
      rw [hred] at hids
      dsimp only [cleanupDeadClient, allocMessage] at hids
      obtain ⟨p0, hp0, hfe⟩ := mem_cleanupUserClients (flookup_mem hids)
      have hfe2 : ids = List.filter (fun x => !decide (x = cid)) p0.2 := hfe
      intro hmem
      rw [hfe2] at hmem
      simp at hmem
  · intro s cid q body hq hfull
    have hmemb : cid ∈ ((allocMessage body s).2.clients.filter
        (fun p => !decide (p.2.length < sseMaxQueueSize))).map Prod.fst := by
      refine List.mem_map.mpr ⟨(cid, q), List.mem_filter.mpr ⟨?_, ?_⟩, rfl⟩
      · dsimp only [allocMessage]
        exact flookup_mem hq
      · simp [hfull]
    have hclean : CleanOf cid (broadcastMessage body s).2 := by
      simp only [broadcastMessage]
      exact cleanOf_foldl cid _ _ (Or.inl hmemb)
    obtain ⟨h1, h2⟩ := cleanOf_lookup hclean
    exact ⟨h1, h2⟩

/-- Witness for C5: the reachable single-client state satisfies the bound,
and on the concrete full-queue state the 101st unicast put returns `False`
and evicts client 1 from the maps, as does a broadcast. -/
theorem c5_queue_bound_and_eviction_witness :
    (([] : List SSEMsg).length ≤ sseMaxQueueSize) ∧
    ((sendToClient 1 "x" c5FullState).1 = false ∧
      flookup 1 (sendToClient 1 "x" c5FullState).2.clients = none ∧
      ∀ u ids, flookup u (sendToClient 1 "x" c5FullState).2.userClients =
        some ids → 1 ∉ ids) ∧
    flookup 1 (broadcastMessage "y" c5FullState).2.clients = none := by
  obtain ⟨h1, h2, h3⟩ := c5_queue_bound_and_eviction
  refine ⟨?_, ?_, ?_⟩
  · exact h1 (addClient "alice" initialSSEState).2
      (Relation.ReflTransGen.tail Relation.ReflTransGen.refl
        (SSEStep.add "alice" initialSSEState)) 1 [] (by decide)
  · exact h2 c5FullState 1 c5FullQueue "x" (by decide) (by decide)
  · exact (h3 c5FullState 1 c5FullQueue "y" (by decide) (by decide)).1

/-! #### History ring and replay (claim C6) -/

/-- The message-history invariant: the ring holds messages with consecutive
ids ending at the last allocated id `seq`, and at most `sseMaxHistory` of
them. -/
def HistoryInv (hist : List SSEMsg) (seq : Nat) : Prop :=
  ∃ start, hist.map (fun m => m.id) = List.range' start hist.length ∧
    start + hist.length = seq + 1 ∧ hist.length ≤ sseMaxHistory

def HistInv (s : SSEState) : Prop := HistoryInv s.history s.msgSeq

theorem range'_snoc :
    ∀ (n s : Nat), List.range' s (n + 1) = List.range' s n ++ [s + n] := by
  intro n
  induction n with
  | zero => intro s; simp [List.range'_succ]
  | succ n ih =>
    intro s
    rw [List.range'_succ, ih (s + 1), List.range'_succ]
    rw [show s + 1 + n = s + (n + 1) from by omega]
    rfl

theorem drop_range' :
    ∀ (n s k : Nat), (List.range' s n).drop k = List.range' (s + k) (n - k) := by
  intro n
  induction n with
  | zero => intro s k; simp
  | succ n ih =>
    intro s k
    cases k with
    | zero => simp
    | succ k =>
      rw [List.range'_succ, List.drop_succ_cons, ih (s + 1) k]
      rw [show s + 1 + k = s + (k + 1) from by omega]
      rw [show n + 1 - (k + 1) = n - k from by omega]

theorem filter_range'_keep :
    ∀ (n s k : Nat), k < s →
      (List.range' s n).filter (fun x => decide (k < x)) =
        List.range' s n := by
  intro n
  induction n with
  | zero => intro s k h; simp
  | succ n ih =>
    intro s k h
    rw [List.range'_succ, List.filter_cons, if_pos (decide_eq_true h)]
    rw [ih (s + 1) k (by omega)]

theorem filter_range'_ge :
    ∀ (n s k : Nat), s ≤ k + 1 →
      (List.range' s n).filter (fun x => decide (k < x)) =
        List.range' (k + 1) (s + n - (k + 1)) := by
  intro n
  induction n with
  | zero =>
    intro s k h
    rw [show s + 0 - (k + 1) = 0 from by omega]
    simp
  | succ n ih =>
    intro s k h
    by_cases hs : s = k + 1
    · subst hs
      rw [filter_range'_keep (n + 1) (k + 1) k (by omega)]
      rw [show k + 1 + (n + 1) - (k + 1) = n + 1 from by omega]
    · rw [List.range'_succ, List.filter_cons,
        if_neg (by simp only [decide_eq_true_eq]; omega)]
      rw [ih (s + 1) k (by omega)]
      rw [show s + 1 + n - (k + 1) = s + (n + 1) - (k + 1) from by omega]

theorem map_id_filter (k : Nat) :
    ∀ (h : List SSEMsg),
      (h.filter (fun m => decide (k < m.id))).map (fun m => m.id) =
        (h.map (fun m => m.id)).filter (fun x => decide (k < x)) := by
  intro h
  induction h with
  | nil => rfl
  | cons m t ih =>
    rw [List.map_cons, List.filter_cons, List.filter_cons]
    by_cases hc : k < m.id
    · rw [if_pos (decide_eq_true hc), if_pos (decide_eq_true hc),
        List.map_cons, ih]
    · rw [if_neg (by simp [hc]), if_neg (by simp [hc]), ih]

theorem histInv_pushRing {hist : List SSEMsg} {seq : Nat}
    (h : HistoryInv hist seq) (m : SSEMsg) (hm : m.id = seq + 1) :
    HistoryInv (pushRing sseMaxHistory hist m) (seq + 1) := by
  obtain ⟨start, hmap, hsum, hlen⟩ := h
  have hlen2 : (hist ++ [m]).length = hist.length + 1 := by simp
  have hmap2 : (hist ++ [m]).map (fun x => x.id) =
      List.range' start (hist.length + 1) := by
    rw [List.map_append, hmap]
    simp only [List.map_cons, List.map_nil]
    rw [hm, ← hsum]
    exact (range'_snoc hist.length start).symm
  have hpr : pushRing sseMaxHistory hist m =
      (hist ++ [m]).drop ((hist ++ [m]).length - sseMaxHistory) := rfl
  refine ⟨start + (hist.length + 1 - sseMaxHistory), ?_, ?_, ?_⟩
  · rw [hpr, List.map_drop, hmap2, hlen2, List.length_drop, hlen2,
      drop_range']
  · rw [hpr, List.length_drop, hlen2]
    omega
  · rw [hpr, List.length_drop, hlen2]
    omega

set_option maxRecDepth 100000

theorem histInv_alloc {s : SSEState} (h : HistInv s) (body : String) :
    HistInv (allocMessage body s).2 := by
  dsimp only [allocMessage]
  exact histInv_pushRing h { id := s.msgSeq + 1, body := body } rfl

theorem histInv_cleanupDead {s : SSEState} (h : HistInv s) (c : Nat) :
    HistInv (cleanupDeadClient c s) := h

theorem histInv_foldl_cleanup :
    ∀ (ds : List Nat) (s : SSEState), HistInv s →
      HistInv (ds.foldl (fun st c => cleanupDeadClient c st) s) := by
  intro ds
  induction ds with
  | nil => intro s h; exact h
  | cons d ds ih =>
    intro s h
    simp only [List.foldl_cons]
    exact ih _ (histInv_cleanupDead h d)

theorem histInv_sendToClient {s : SSEState} (h : HistInv s) (cid : Nat)
    (body : String) : HistInv (sendToClient cid body s).2 := by
  have h2 : HistoryInv (pushRing sseMaxHistory s.history
      { id := s.msgSeq + 1, body := body }) (s.msgSeq + 1) :=
    histInv_pushRing h { id := s.msgSeq + 1, body := body } rfl
  simp only [sendToClient]
  split
  · dsimp only [allocMessage]
    exact h2
  · split
    · dsimp only [allocMessage]
      exact h2
    · dsimp only [cleanupDeadClient, allocMessage]
      exact h2

theorem histInv_broadcast {s : SSEState} (h : HistInv s) (body : String) :
    HistInv (broadcastMessage body s).2 := by
  have h2 : HistoryInv (pushRing sseMaxHistory s.history
      { id := s.msgSeq + 1, body := body }) (s.msgSeq + 1) :=
    histInv_pushRing h { id := s.msgSeq + 1, body := body } rfl
  simp only [broadcastMessage]
  refine histInv_foldl_cleanup _ _ ?_
  dsimp only [allocMessage]
  exact h2

theorem histInv_foldl_send (body : String) :
    ∀ (ids : List Nat) (acc : Bool × SSEState), HistInv acc.2 →
      HistInv (ids.foldl (fun acc cid =>
        (acc.1 || (sendToClient cid body acc.2).1,
         (sendToClient cid body acc.2).2)) acc).2 := by
  intro ids
  induction ids with
  | nil => intro acc h; exact h
  | cons i ids ih =>
    intro acc h
    simp only [List.foldl_cons]
    exact ih _ (histInv_sendToClient h i body)

theorem histInv_sendToUser {s : SSEState} (h : HistInv s) (u body : String) :
    HistInv (sendToUser u body s).2 := by
  simp only [sendToUser]
  by_cases he : ((flookup u s.userClients).getD []).isEmpty
  · rw [if_pos he]
    exact h
  · rw [if_neg he]
    exact histInv_foldl_send body _ (false, s) h

theorem histInv_cleanupAll (s : SSEState) : HistInv (cleanupAll s) := by
  refine ⟨s.msgSeq + 1, ?_, ?_, ?_⟩ <;> simp [cleanupAll, sseMaxHistory]

theorem histInv_step {s s2 : SSEState} (hstep : SSEStep s s2)
    (h : HistInv s) : HistInv s2 := by
  cases hstep with
  | add u s => exact h
  | remove c u s => exact h
  | send c body s => exact histInv_sendToClient h c body
  | bcast body s => exact histInv_broadcast h body
  | sendUser u body s => exact histInv_sendToUser h u body
  | dequeue c s =>
    simp only [dequeueClient]
    split
    · exact h
    · exact h
  | replayPut c m q s hq hlen => exact h
  | cleanup s => exact histInv_cleanupAll s

theorem sse_reachable_histInv {s : SSEState} (h : SSEReachable s) :
    HistInv s := by
  simp only [SSEReachable] at h
  induction h with
  | refl =>
    refine ⟨1, ?_, ?_, ?_⟩ <;> simp [initialSSEState, sseMaxHistory]
  | tail hr hstep ih => exact histInv_step hstep ih

/-- An entry of a reconnecting client's queue during `get_sse_stream`
setup: a replayed history message or the initialization metadata dict. -/
inductive QItem where
  | replayed (m : SSEMsg)
  | metadata
deriving DecidableEq

/-- A sequence of blocking `await queue.put(...)` calls on a queue with
capacity `cap`: each completes once the queue is below capacity; with no
concurrent consumer an over-capacity put never completes (`none`). -/
def blockingPuts (cap : Nat) : List QItem → List QItem → Option (List QItem)
  | q, [] => some q
  | q, item :: rest =>
    if q.length < cap then blockingPuts cap (q ++ [item]) rest
    else none

/-- The replay section of `get_sse_stream` (`handlers/mcp_app.py`): the
fresh client's empty queue receives every missed message in order and then
the initialization metadata, before the writer starts draining. -/
def sseStreamSetupQueue (missed : List SSEMsg) : Option (List QItem) :=
  blockingPuts sseMaxQueueSize [] (missed.map QItem.replayed ++ [QItem.metadata])

theorem blockingPuts_complete (cap : Nat) :
    ∀ (items q : List QItem), q.length + items.length ≤ cap →
      blockingPuts cap q items = some (q ++ items) := by
  intro items
  induction items with
  | nil => intro q h; simp [blockingPuts]
  | cons it rest ih =>
    intro q h
    simp only [blockingPuts]
    rw [if_pos (by simp only [List.length_cons] at h; omega)]
    rw [ih (q ++ [it]) (by simp only [List.length_cons,
      List.length_append, List.length_nil] at h ⊢; omega)]
    simp

theorem blockingPuts_stuck (cap : Nat) :
    ∀ (items q : List QItem), items ≠ [] → cap < q.length + items.length →
      blockingPuts cap q items = none := by
  intro items
  induction items with
  | nil => intro q hne h; exact absurd rfl hne
  | cons it rest ih =>
    intro q hne h
    simp only [blockingPuts]
    by_cases hq : q.length < cap
    · rw [if_pos hq]
      cases rest with
      | nil =>
        exfalso
        simp only [List.length_cons, List.length_nil] at h
        omega
      | cons r2 rest2 =>
        refine ih (q ++ [it]) (by simp) ?_
        simp only [List.length_append, List.length_cons,
          List.length_nil] at h ⊢
        omega
    · rw [if_neg hq]

/-- `n` broadcasts in a row (each with a fresh message id). -/
def broadcastN : Nat → SSEState → SSEState
  | 0, s => s
  | n + 1, s => broadcastN n (broadcastMessage "m" s).2

theorem broadcastN_reachable :
    ∀ (n : Nat) (s : SSEState),
      Relation.ReflTransGen SSEStep initialSSEState s →
      Relation.ReflTransGen SSEStep initialSSEState (broadcastN n s) := by
  intro n
  induction n with
  | zero => intro s h; exact h
  | succ n ih =>
    intro s h
    exact ih _ (Relation.ReflTransGen.tail h (SSEStep.bcast "m" s))

/-- 102 broadcasts from a fresh manager: history ids `1, …, 102`. -/
def c6CounterState : SSEState := broadcastN 102 initialSSEState

/--
Counterexample to claim C6 as stated: the replay-before-any-new-message
guarantee is not unconditional.  In the reachable state after 102
broadcasts, a client reconnecting with `Last-Event-ID: 1` — and `1` is at
least the minimum id still in the ring — misses 101 messages, more than
the 100-slot client queue can hold; the blocking `await queue.put` calls
of `get_sse_stream`'s replay loop then never all complete (the writer has
not started draining), so the messages past the 100th are never enqueued
and the setup never reaches the metadata put. -/
theorem c6_missed_since_replay_counterexample :
    SSEReachable c6CounterState ∧
    c6CounterState.msgSeq ≤ 1 + c6CounterState.history.length ∧
    getMissedMessages (some "1") c6CounterState.history =
      Except.ok (c6CounterState.history.filter
        (fun m => decide (1 < m.id))) ∧
    sseMaxQueueSize < (c6CounterState.history.filter
      (fun m => decide (1 < m.id))).length ∧
    sseStreamSetupQueue (c6CounterState.history.filter
      (fun m => decide (1 < m.id))) = none := by
  refine ⟨broadcastN_reachable 102 initialSSEState
    Relation.ReflTransGen.refl, by decide, rfl, by decide, rfl⟩

/-- Three broadcasts from a fresh manager: history ids `[1, 2, 3]`. -/
def c6WitnessState : SSEState :=
  (broadcastMessage "c" (broadcastMessage "b"
    (broadcastMessage "a" initialSSEState).2).2).2

/--
**Claim C6, amended.** (a) On a digit-string `Last-Event-ID` parsing to
`k`, `get_missed_messages` returns exactly the history entries with
`id > k`, in history order.  (b) In any reachable manager state whose
oldest ring entry is no newer than `k + 1` (`msgSeq ≤ k + |history|`,
i.e. `k` is at least the minimum id still in the ring), the ids of the
missed messages are exactly `k+1, …, msgSeq` in order; when together with
the metadata message they fit the 100-slot client queue, the
`get_sse_stream` setup enqueues all of them, in order, before the
initialization metadata — hence before any new message; but when the
missed messages alone reach the queue capacity, the blocking replay/
metadata puts never all complete (no writer drains the fresh queue), so
the unconditional replay guarantee of the original claim fails. -/
theorem c6_missed_since_replay_amended :
    (∀ (str : String) (hist : List SSEMsg) (k : Nat),
        pyStrIsDigit str = true → pyIntOfDigits str = Except.ok k →
        getMissedMessages (some str) hist =
          Except.ok (hist.filter (fun m => decide (k < m.id)))) ∧
    (∀ (s : SSEState) (str : String) (k : Nat) (missed : List SSEMsg),
        SSEReachable s →
        pyStrIsDigit str = true → pyIntOfDigits str = Except.ok k →
        s.msgSeq ≤ k + s.history.length →
        getMissedMessages (some str) s.history = Except.ok missed →
        missed.map (fun m => m.id) = List.range' (k + 1) (s.msgSeq - k) ∧
        (missed.length + 1 ≤ sseMaxQueueSize →
          sseStreamSetupQueue missed =
            some (missed.map QItem.replayed ++ [QItem.metadata])) ∧
        (sseMaxQueueSize ≤ missed.length →
          sseStreamSetupQueue missed = none)) := by
  have partA : ∀ (str : String) (hist : List SSEMsg) (k : Nat),
      pyStrIsDigit str = true → pyIntOfDigits str = Except.ok k →
      getMissedMessages (some str) hist =
        Except.ok (hist.filter (fun m => decide (k < m.id))) := by
    intro str hist k hd hk
    have hne : str ≠ "" := by
      intro he
      rw [he] at hd
      exact absurd hd (by decide)
    simp only [getMissedMessages]
    rw [if_neg (by simp [hd, hne]), hk]
  refine ⟨partA, ?_⟩
  intro s str k missed hreach hd hk hmin hrun
  obtain ⟨start, hmap, hsum, hlen⟩ := sse_reachable_histInv hreach
  rw [partA str s.history k hd hk] at hrun
  have hmissed : missed = s.history.filter (fun m => decide (k < m.id)) :=
    (Except.ok.inj hrun).symm
  refine ⟨?_, ?_, ?_⟩
  · rw [hmissed, map_id_filter, hmap,
      filter_range'_ge s.history.length start k (by omega)]
    rw [show start + s.history.length - (k + 1) = s.msgSeq - k from by omega]
  · intro hcap
    simp only [sseStreamSetupQueue]
    rw [blockingPuts_complete sseMaxQueueSize
      (missed.map QItem.replayed ++ [QItem.metadata]) []
      (by simp only [List.length_nil, List.length_append, List.length_map,
        List.length_cons, Nat.zero_add]; omega)]
    simp
  · intro hover
    simp only [sseStreamSetupQueue]
    refine blockingPuts_stuck sseMaxQueueSize _ [] (by simp) ?_
    simp only [List.length_nil, List.length_append, List.length_map,
      List.length_cons]
    omega

/-- Witness for the amended C6: after three broadcasts, reconnecting with
`Last-Event-ID: 1` replays exactly the messages with ids 2 and 3, and the
setup queue holds them, in order, ahead of the metadata message. -/
theorem c6_missed_since_replay_amended_witness :
    getMissedMessages (some "1") [⟨1, "a"⟩, ⟨2, "b"⟩, ⟨3, "c"⟩] =
      Except.ok [⟨2, "b"⟩, ⟨3, "c"⟩] ∧
    ([⟨2, "b"⟩, ⟨3, "c"⟩] : List SSEMsg).map (fun m => m.id) =
      List.range' 2 2 ∧
    sseStreamSetupQueue [⟨2, "b"⟩, ⟨3, "c"⟩] =
      some [QItem.replayed ⟨2, "b"⟩, QItem.replayed ⟨3, "c"⟩,
        QItem.metadata] := by
  have hreach : SSEReachable c6WitnessState :=
    Relation.ReflTransGen.tail (Relation.ReflTransGen.tail
      (Relation.ReflTransGen.tail Relation.ReflTransGen.refl
        (SSEStep.bcast "a" initialSSEState))
      (SSEStep.bcast "b" (broadcastMessage "a" initialSSEState).2))
      (SSEStep.bcast "c" (broadcastMessage "b"
        (broadcastMessage "a" initialSSEState).2).2)
  obtain ⟨hA, hB⟩ := c6_missed_since_replay_amended
  have h := hB c6WitnessState "1" 1 [⟨2, "b"⟩, ⟨3, "c"⟩] hreach
    (by decide) rfl (by decide) rfl
  exact ⟨hA "1" [⟨1, "a"⟩, ⟨2, "b"⟩, ⟨3, "c"⟩] 1 (by decide) rfl,
    h.1, h.2.1 (by decide)⟩

end MCPDaemon
